import Mathlib

/-!
Verification of the relation-extraction classifier head
(`flair/models/relation_extractor_model.py`).

The Python module is shallowly embedded below.  Sentences, spans and
labels become plain records; `forward_pass` becomes a pure function that
additionally returns an explicit trace of the side effects that matter
for the specification (which chunks were handed to the embedding
provider, in which train/eval mode, and whether the provider was
switched back to training mode at the end).  The embedding provider
itself is an external collaborator; it is modelled by opaque-content
functions stored in the configuration record (`docEmb`, `tokEmb`), and
the decoder and dropout layers by row-wise functions (`decodeRow`,
`dropoutRow`), which is exactly how they act on the stacked tensor.
Python object identity of a `Span` is modelled by its `sid` field;
fallible code (`add_entity_markers`, and `forward_pass` when it calls
it) returns `Except`.
-/

namespace FlairRE

/-- A flair `Span`: `sid` models Python object identity, `idText` the
stable `id_text` attribute used for position keys, `start`/`stop` the
(inclusive) token positions of the span inside its sentence, which is
how the identity tests `token == span[0]` / `token == span[-1]` of
`add_entity_markers` resolve for spans belonging to the sentence. -/
structure Span where
  sid : Nat
  idText : String
  start : Nat
  stop : Nat
deriving DecidableEq

/-- A span annotation (flair `SpanLabel`): a span plus its entity type. -/
structure SpanLabel where
  span : Span
  value : String
deriving DecidableEq

/-- A gold relation annotation (flair `RelationLabel`): directed edge
from a head span to a tail span with a relation value. -/
structure RelationLabel where
  head : Span
  tail : Span
  value : String
deriving DecidableEq

/-- A sentence, projected to what `forward_pass` reads from it: its
tokens (by text), `get_labels(label_type)` and
`get_labels(span_label_type)`. -/
structure Sentence where
  tokens : List String
  relLabels : List RelationLabel
  spanLabels : List SpanLabel
deriving DecidableEq

/-- `create_position_string(head, tail)`: the PositionKey
`f"{head.id_text} -> {tail.id_text}"`. -/
def create_position_string (head tail : Span) : String :=
  head.idText ++ " -> " ++ tail.idText

/-- The per-sentence gold index: `relation_dict` is a Python dict built
by inserting each relation annotation under its PositionKey in order
(later duplicates overwrite earlier ones), then looked up per candidate
pair.  The fold below returns exactly what that dict lookup returns:
the last relation whose key matches. -/
def relation_dict_lookup (rels : List RelationLabel) (key : String) :
    Option RelationLabel :=
  rels.foldl
    (fun acc rl =>
      if create_position_string rl.head rl.tail = key then some rl else acc)
    none

/-- Whether the embedding provider is a `TransformerDocumentEmbeddings`
(whole-document) provider or a token-level provider; in the source this
is decided by `type(self.embeddings) == TransformerDocumentEmbeddings`. -/
inductive EmbKind where
  | document
  | token
deriving DecidableEq

/-- The model configuration read by `forward_pass`, plus the external
collaborators it calls.  `docEmb toks` is the document embedding the
provider stores on a sentence with tokens `toks`; `tokEmb toks i` is the
embedding stored on token `i` of such a sentence; `dropoutRow` and
`decodeRow` are the dropout layer and the (linear or two-layer) decoder,
both of which act row-wise on the stacked relation-representation
tensor, `training` is `self.training` and `providerTrainMode` the
provider's train/eval mode when `forward_pass` is entered. -/
structure Config where
  embKind : EmbKind
  use_entity_markers : Bool
  use_gold_spans : Bool
  use_entity_pairs : Option (List (String × String))
  docEmb : List String → List Int
  tokEmb : List String → Nat → List Int
  dropoutRow : List Int → List Int
  decodeRow : List Int → List Int
  training : Bool
  providerTrainMode : Bool

/-- The allow-list test: with no allow-list every type pair is allowed,
otherwise `(span_label.value, span_label_2.value)` must be in it. -/
def pairAllowed (aps : Option (List (String × String))) (v1 v2 : String) :
    Bool :=
  match aps with
  | none => true
  | some ps => decide ((v1, v2) ∈ ps)

/-- One generated candidate: the ordered span pair, the label string
assigned to it, plus the data `forward_pass` later reads off the pair's
original sentence (its tokens, and its position in the input batch which
models the `span_1[0].sentence` object reference). -/
structure Candidate where
  span1 : Span
  span2 : Span
  label : String
  sentTokens : List String
  sentIdx : Nat
deriving DecidableEq

/-- The candidate cross product of one sentence, exactly as generated by
the nested loops of `forward_pass`: outer loop over the span
annotations (`span_1`), inner loop over the span annotations
(`span_2`); self pairs (`span_1 == span_2`, object identity) are
skipped, then the allow-list filter, then the gold lookup assigns the
gold value, or skips the pair under `use_gold_spans`, or assigns
label `O`. -/
def candidate_pairs (cfg : Config) (idx : Nat) (s : Sentence) :
    List Candidate :=
  s.spanLabels.bind fun sl1 =>
    s.spanLabels.filterMap fun sl2 =>
      if sl1.span.sid = sl2.span.sid then none
      else if !pairAllowed cfg.use_entity_pairs sl1.value sl2.value then none
      else
        match relation_dict_lookup s.relLabels
            (create_position_string sl1.span sl2.span) with
        | some rl => some ⟨sl1.span, sl2.span, rl.value, s.tokens, idx⟩
        | none =>
          if cfg.use_gold_spans then none
          else some ⟨sl1.span, sl2.span, "O", s.tokens, idx⟩

/-- All candidates of a batch: per-sentence candidates concatenated in
input order (the flat ordered list that `labels`, `entity_pairs`, the
scores tensor and the label candidates are positionally zipped with). -/
def generate_candidates (cfg : Config) (sents : List Sentence) :
    List Candidate :=
  sents.enum.bind fun p => candidate_pairs cfg p.1 p.2

section CandidateLemmas

/-- `filterMap` with a body equal to an if-guarded `some` is a `filter`
followed by a `map`. -/
theorem filterMap_body_eq {α β : Type} (h : α → Option β) (p : α → Prop)
    [DecidablePred p] (g : α → β)
    (hb : ∀ x, h x = if p x then none else some (g x)) :
    ∀ l : List α, l.filterMap h = (l.filter fun x => decide ¬ p x).map g := by
  intro l
  induction l with
  | nil => rfl
  | cons a l ih =>
    by_cases hp : p a <;>
      simp [List.filterMap_cons, List.filter_cons, hb a, hp, ih]

/-- A list whose mapped values avoid `a` filters to itself. -/
theorem filter_ne_of_not_mem {α : Type} (f : α → Nat) (a : Nat)
    (l : List α) (h : a ∉ l.map f) :
    (l.filter fun x => decide ¬ a = f x) = l := by
  apply List.filter_eq_self.mpr
  intro x hx
  simp only [decide_eq_true_eq]
  exact fun hax => h (hax ▸ List.mem_map_of_mem f hx)

/-- With pairwise-distinct identities, filtering away one present
identity drops exactly one element. -/
theorem length_filter_ne {α : Type} (f : α → Nat) (a : Nat) :
    ∀ l : List α, (l.map f).Nodup → a ∈ l.map f →
      ((l.filter fun x => decide ¬ a = f x).length = l.length - 1) := by
  intro l
  induction l with
  | nil => intro _ h; simp at h
  | cons b l ih =>
    intro hnd hmem
    simp only [List.map_cons, List.nodup_cons] at hnd
    by_cases h : a = f b
    · have hfl : (l.filter fun x => decide ¬ a = f x) = l :=
        filter_ne_of_not_mem f a l (h ▸ hnd.1)
      have hpb : (decide ¬ a = f b) = false := by simp [h]
      rw [List.filter_cons_of_neg (by simp [hpb]), hfl]
      simp
    · have hmem2 : a ∈ l.map f := by
        rcases List.mem_cons.mp hmem with h2 | h2
        · exact absurd h2 h
        · exact h2
      have hlpos : 0 < l.length := by
        rcases List.mem_map.mp hmem2 with ⟨x, hx, _⟩
        exact List.length_pos.mpr (List.ne_nil_of_mem hx)
      have ihr := ih hnd.2 hmem2
      rw [List.filter_cons_of_pos (by simp [h]), List.length_cons, ihr,
        List.length_cons]
      omega

/-- Summing a map whose values are all `c` gives `length * c`. -/
theorem sum_map_const_of {α : Type} (f : α → Nat) (c : Nat) :
    ∀ l : List α, (∀ x ∈ l, f x = c) → (l.map f).sum = l.length * c := by
  intro l
  induction l with
  | nil => simp
  | cons a l ih =>
    intro h
    have ha := h a (List.mem_cons_self a l)
    have hl := ih fun x hx => h x (List.mem_cons_of_mem a hx)
    simp only [List.map_cons, List.sum_cons, List.length_cons, ha, hl]
    ring

/-- Under no allow-list and gold-only off, candidate generation for one
sentence is literally the nested cross product with the self pairs
removed, each pair labelled by gold lookup or `O`. -/
theorem candidate_pairs_closed_form (cfg : Config) (idx : Nat)
    (s : Sentence) (hal : cfg.use_entity_pairs = none)
    (hg : cfg.use_gold_spans = false) :
    candidate_pairs cfg idx s
      = s.spanLabels.bind fun sl1 =>
          (s.spanLabels.filter fun sl2 =>
            decide ¬ sl1.span.sid = sl2.span.sid).map
            fun sl2 =>
              (⟨sl1.span, sl2.span,
                (match relation_dict_lookup s.relLabels
                    (create_position_string sl1.span sl2.span) with
                 | some rl => rl.value
                 | none => "O"), s.tokens, idx⟩ : Candidate) := by
  unfold candidate_pairs
  congr 1
  funext sl1
  apply filterMap_body_eq
  intro sl2
  by_cases h : sl1.span.sid = sl2.span.sid
  · simp [h]
  · cases hr : relation_dict_lookup s.relLabels
      (create_position_string sl1.span sl2.span) with
    | some rl => simp [h, hal, pairAllowed, hr]
    | none => simp [h, hal, pairAllowed, hr, hg]

end CandidateLemmas

/-- C3: for a sentence whose span-annotation list `S` has pairwise
distinct span identities, with no allow-list configured and gold-only
mode off, the generated candidates are exactly the full ordered cross
product of the spans in nested iteration order (outer `span_1`, inner
`span_2`) minus the self pairs, so their number is
`len(S) * (len(S) - 1)`. -/
theorem C3_cross_product (cfg : Config) (idx : Nat) (s : Sentence)
    (hal : cfg.use_entity_pairs = none)
    (hg : cfg.use_gold_spans = false)
    (hnd : (s.spanLabels.map fun sl => sl.span.sid).Nodup) :
    (candidate_pairs cfg idx s
      = s.spanLabels.bind fun sl1 =>
          (s.spanLabels.filter fun sl2 =>
            decide ¬ sl1.span.sid = sl2.span.sid).map
            fun sl2 =>
              (⟨sl1.span, sl2.span,
                (match relation_dict_lookup s.relLabels
                    (create_position_string sl1.span sl2.span) with
                 | some rl => rl.value
                 | none => "O"), s.tokens, idx⟩ : Candidate))
    ∧ (candidate_pairs cfg idx s).length
        = s.spanLabels.length * (s.spanLabels.length - 1) := by
  have hcf := candidate_pairs_closed_form cfg idx s hal hg
  refine ⟨hcf, ?_⟩
  rw [hcf, List.length_bind]
  apply sum_map_const_of
  intro sl1 hs1
  simp only [Function.comp, List.length_map]
  exact length_filter_ne (fun sl => sl.span.sid) sl1.span.sid s.spanLabels hnd
    (List.mem_map_of_mem _ hs1)

/-- C2: every candidate pair emitted by the generation loop carries the
gold relation value whenever the gold index contains the PositionKey of
`(span_1, span_2)`; when the index does not contain it the pair can
only have been emitted with gold-only mode off (under `use_gold_spans`
such a pair is not emitted at all), and then its label is `O`. -/
theorem C2_gold_label (cfg : Config) (idx : Nat) (s : Sentence)
    (c : Candidate) (hc : c ∈ candidate_pairs cfg idx s) :
    (∀ rl, relation_dict_lookup s.relLabels
        (create_position_string c.span1 c.span2) = some rl →
        c.label = rl.value)
    ∧ (relation_dict_lookup s.relLabels
        (create_position_string c.span1 c.span2) = none →
        cfg.use_gold_spans = false ∧ c.label = "O") := by
  unfold candidate_pairs at hc
  rcases List.mem_bind.mp hc with ⟨sl1, hs1, hc2⟩
  rcases List.mem_filterMap.mp hc2 with ⟨sl2, hs2, he⟩
  by_cases h : sl1.span.sid = sl2.span.sid
  · rw [if_pos h] at he; exact absurd he (by simp)
  · rw [if_neg h] at he
    by_cases ha : (!pairAllowed cfg.use_entity_pairs sl1.value sl2.value)
        = true
    · rw [if_pos ha] at he; exact absurd he (by simp)
    · rw [if_neg ha] at he
      cases hr : relation_dict_lookup s.relLabels
          (create_position_string sl1.span sl2.span) with
      | some rl =>
        rw [hr] at he
        have hcv : c = ⟨sl1.span, sl2.span, rl.value, s.tokens, idx⟩ :=
          (Option.some.injEq _ _ ▸ he).symm
        subst hcv
        refine ⟨?_, ?_⟩
        · intro rl2 hrl2
          rw [hr] at hrl2
          cases hrl2
          rfl
        · intro hnone
          rw [hr] at hnone
          cases hnone
      | none =>
        rw [hr] at he
        cases hgold : cfg.use_gold_spans with
        | true => rw [hgold] at he; rw [if_pos rfl] at he; cases he
        | false =>
          rw [hgold] at he; rw [if_neg (by simp)] at he
          have hcv : c = ⟨sl1.span, sl2.span, "O", s.tokens, idx⟩ :=
            (Option.some.injEq _ _ ▸ he).symm
          subst hcv
          refine ⟨?_, fun _ => ⟨rfl, rfl⟩⟩
          intro rl2 hrl2
          rw [hr] at hrl2
          cases hrl2

/-- A concrete no-frills configuration: token-level embeddings, no
entity markers, gold-only off, no allow-list, identity dropout/decoder. -/
def plainCfg : Config :=
  { embKind := EmbKind.token, use_entity_markers := false,
    use_gold_spans := false, use_entity_pairs := none,
    docEmb := fun _ => [], tokEmb := fun _ _ => [],
    dropoutRow := fun v => v, decodeRow := fun v => v,
    training := false, providerTrainMode := false }

/-- Concrete spans used by the witnesses. -/
def spanA : Span := ⟨0, "A", 0, 0⟩

/-- Concrete spans used by the witnesses. -/
def spanB : Span := ⟨1, "B", 1, 1⟩

/-- Concrete spans used by the witnesses. -/
def spanC : Span := ⟨2, "C", 2, 2⟩

/-- Two-span sentence with exactly one gold relation `spanA -> spanB`. -/
def goldSent : Sentence :=
  { tokens := ["A", "B"],
    relLabels := [⟨spanA, spanB, "works_for"⟩],
    spanLabels := [⟨spanA, "PER"⟩, ⟨spanB, "ORG"⟩] }

/-- The first candidate `goldSent` generates. -/
def goldCand : Candidate := ⟨spanA, spanB, "works_for", ["A", "B"], 0⟩

/-- C2 witness: the theorem applied to the gold candidate of a concrete
sentence holding one gold relation among two spans. -/
theorem C2_gold_label_witness :
    goldCand ∈ candidate_pairs plainCfg 0 goldSent
    ∧ ((∀ rl, relation_dict_lookup goldSent.relLabels
          (create_position_string goldCand.span1 goldCand.span2) = some rl →
          goldCand.label = rl.value)
      ∧ (relation_dict_lookup goldSent.relLabels
          (create_position_string goldCand.span1 goldCand.span2) = none →
          plainCfg.use_gold_spans = false ∧ goldCand.label = "O")) :=
  ⟨by decide, C2_gold_label plainCfg 0 goldSent goldCand (by decide)⟩

/-- Three-span sentence with no gold relations. -/
def threeSpanSent : Sentence :=
  { tokens := ["A", "B", "C"],
    relLabels := [],
    spanLabels := [⟨spanA, "E"⟩, ⟨spanB, "E"⟩, ⟨spanC, "E"⟩] }

/-- C3 witness: the theorem applied to a concrete three-span sentence;
the generated-candidate count is `3 * 2`. -/
theorem C3_cross_product_witness :
    (plainCfg.use_entity_pairs = none ∧ plainCfg.use_gold_spans = false
      ∧ (threeSpanSent.spanLabels.map fun sl => sl.span.sid).Nodup)
    ∧ (candidate_pairs plainCfg 0 threeSpanSent).length
        = threeSpanSent.spanLabels.length
            * (threeSpanSent.spanLabels.length - 1) :=
  ⟨⟨rfl, rfl, by decide⟩,
    (C3_cross_product plainCfg 0 threeSpanSent rfl rfl (by decide)).2⟩


/-! ### Entity-marker rewriting (`add_entity_markers`)

The method builds a text string by a single left-to-right scan over the
sentence's tokens, emitting each piece as `" " + piece`, and tracking a
running `offset` of emitted pieces; then it re-tokenizes the text with
`Sentence(text, use_tokenizer=False)`, i.e. splits it on spaces keeping
the non-empty parts.  The loop state below carries the emitted pieces,
the offset, the recorded (1-based) marker positions and the
`entity_one_is_first` flag, exactly as the Python locals do
(`none` models an unset/unbound Python local). -/

/-- Split a character list on spaces keeping the non-empty parts;
`acc` holds the (reversed) current word. -/
def wordsAux : List Char → List Char → List (List Char)
  | [], acc => if acc.isEmpty then [] else [acc.reverse]
  | c :: cs, acc =>
    if c = ' ' then
      if acc.isEmpty then wordsAux cs []
      else acc.reverse :: wordsAux cs []
    else wordsAux cs (c :: acc)

/-- Tokenization used by `Sentence(text, use_tokenizer=False)`: split
the text on spaces, one token per non-empty part. -/
def tokenizeText (s : String) : List String :=
  (wordsAux s.data []).map fun cs => String.mk cs

/-- The text built by the marker scan: every emission in the source is
`text += " " + piece` (pieces being marker tokens and token texts). -/
def markerText (pieces : List String) : String :=
  pieces.foldl (fun t p => t ++ " " ++ p) ""

/-- Re-tokenization of the marker-annotated text. -/
def retokenize (pieces : List String) : List String :=
  tokenizeText (markerText pieces)

/-- The loop state of the `add_entity_markers` scan. -/
@[ext] structure MState where
  pieces : List String
  offset : Nat
  e1first : Option Bool
  s1start : Option Nat
  s1stop : Option Nat
  s2start : Option Nat
  s2stop : Option Nat
deriving DecidableEq

/-- The state at loop entry: empty text, offset 0, all locals unbound. -/
def initMState : MState := ⟨[], 0, none, none, none, none, none⟩

/-- One iteration of the scan, for the token at sentence position `k`
with text `t`.  `token == span[0]` / `token == span[-1]` are object
identity tests on tokens of the sentence, i.e. `k = span.start` /
`k = span.stop` for spans contained in it.  The branch order and the
points at which `offset` is incremented and recorded mirror the source
line by line. -/
def markStep (sp1 sp2 : Span) (k : Nat) (t : String) (st : MState) :
    MState :=
  let a := if k = sp2.start then
      { st with e1first := some (st.e1first.getD false),
                offset := st.offset + 1,
                pieces := st.pieces ++ ["<e2>"],
                s2start := some (st.offset + 1) }
    else st
  let b := if k = sp1.start then
      { a with offset := a.offset + 1,
               pieces := a.pieces ++ ["<e1>"],
               e1first := some (a.e1first.getD true),
               s1start := some (a.offset + 1) }
    else a
  let c := { b with pieces := b.pieces ++ [t] }
  let d := if k = sp1.stop then
      { c with offset := c.offset + 1,
               pieces := c.pieces ++ ["</e1>"],
               s1stop := some (c.offset + 1) }
    else c
  let e := if k = sp2.stop then
      { d with offset := d.offset + 1,
               pieces := d.pieces ++ ["</e2>"],
               s2stop := some (d.offset + 1) }
    else d
  { e with offset := e.offset + 1 }

/-- The whole scan, processing the tokens from sentence position `k`
onwards. -/
def markRun (sp1 sp2 : Span) (st : MState) (k : Nat) :
    List String → MState
  | [] => st
  | t :: ts => markRun sp1 sp2 (markStep sp1 sp2 k t st) (k + 1) ts

/-- A span of the rewritten sentence consisting of one token:
`Span([expanded_sentence[i]])` becomes the position `i` together with
the token text found there. -/
structure ExpandedSpan where
  pos : Nat
  text : String
deriving DecidableEq

/-- `add_entity_markers(sentence, span_1, span_2)`.  After the scan the
source builds `expanded_span_1/2` from the recorded 1-based start ids
and then checks that the tokens found there are the literal markers; on
failure it raises (the undefined name `asd`, a `NameError`), modelled
by `Except.error`, as is the `NameError` raised when a start id was
never assigned.  On success it returns the rewritten sentence and the
marker-span pair, in argument order when `entity_one_is_first` and
swapped otherwise. -/
def add_entity_markers (toks : List String) (sp1 sp2 : Span) :
    Except String (List String × ExpandedSpan × ExpandedSpan) :=
  let st := markRun sp1 sp2 initMState 0 toks
  match st.s1start, st.s2start with
  | some i1, some i2 =>
    let expToks := retokenize st.pieces
    let e1span : ExpandedSpan := ⟨i1 - 1, expToks.getD (i1 - 1) ""⟩
    let e2span : ExpandedSpan := ⟨i2 - 1, expToks.getD (i2 - 1) ""⟩
    if e1span.text ≠ "<e1>" then Except.error "marker misaligned"
    else if e2span.text ≠ "<e2>" then Except.error "marker misaligned"
    else Except.ok
      (expToks,
        if st.e1first.getD false then (e1span, e2span) else (e2span, e1span))
  | _, _ => Except.error "span start not found"

/-- C6: whenever the token at a computed marker position of the
rewritten sentence is not the expected literal marker token (`<e1>` or
`<e2>`), `add_entity_markers` fails (raises, modelled as `Except.error`)
instead of returning a result, so `forward_pass` never continues with
mis-aligned marker spans. -/
theorem C6_marker_check_fails (toks : List String) (sp1 sp2 : Span)
    (i1 i2 : Nat)
    (h1 : (markRun sp1 sp2 initMState 0 toks).s1start = some i1)
    (h2 : (markRun sp1 sp2 initMState 0 toks).s2start = some i2)
    (hbad :
      (retokenize (markRun sp1 sp2 initMState 0 toks).pieces).getD
          (i1 - 1) "" ≠ "<e1>"
        ∨ (retokenize (markRun sp1 sp2 initMState 0 toks).pieces).getD
          (i2 - 1) "" ≠ "<e2>") :
    ∃ e, add_entity_markers toks sp1 sp2 = Except.error e := by
  unfold add_entity_markers
  simp only [h1, h2]
  by_cases hc1 : (retokenize (markRun sp1 sp2 initMState 0 toks).pieces).getD
      (i1 - 1) "" ≠ "<e1>"
  · exact ⟨_, by rw [if_pos hc1]⟩
  · rcases hbad with hb | hb
    · exact absurd hb hc1
    · exact ⟨_, by rw [if_neg hc1, if_pos hb]⟩

/-- A sentence whose first token text contains an internal space: the
re-tokenization of the rewritten text then has an extra token before
the markers, so the recorded marker positions are off by one. -/
def badTokens : List String := ["x y", "B", "D"]

/-- Span over token 1 of `badTokens`. -/
def badSpan1 : Span := ⟨0, "B", 1, 1⟩

/-- Span over token 2 of `badTokens`. -/
def badSpan2 : Span := ⟨1, "D", 2, 2⟩

/-- C6 witness: on `badTokens` the scan records marker ids 2 and 5, the
token at position 1 of the rewritten sentence is `y` rather than
`<e1>`, and the call errors. -/
theorem C6_marker_check_fails_witness :
    ((markRun badSpan1 badSpan2 initMState 0 badTokens).s1start = some 2
      ∧ (markRun badSpan1 badSpan2 initMState 0 badTokens).s2start = some 5
      ∧ (retokenize
          (markRun badSpan1 badSpan2 initMState 0 badTokens).pieces).getD
          (2 - 1) "" ≠ "<e1>")
    ∧ ∃ e, add_entity_markers badTokens badSpan1 badSpan2
        = Except.error e :=
  ⟨⟨by decide, by decide, by decide⟩,
    C6_marker_check_fails badTokens badSpan1 badSpan2 2 5 (by decide)
      (by decide) (Or.inl (by decide))⟩

/-! ### Closed forms for the marker scan

`retokenize` splits the built text back into tokens.  The lemmas below
show that when every piece is a single word the rewritten sentence is
exactly the piece list, and give closed forms for the scan over
event-free segments and over the two span segments of the sentence. -/

/-- `String.append` acts as `++` on the character data. -/
theorem string_data_append (a b : String) :
    (a ++ b).data = a.data ++ b.data := rfl

/-- Rebuilding a string from its own characters is the identity. -/
theorem string_mk_data (s : String) : String.mk s.data = s := rfl

/-- One split step over a non-space character. -/
theorem wordsAux_cons_ne (c : Char) (cs acc : List Char) (h : ¬ c = ' ') :
    wordsAux (c :: cs) acc = wordsAux cs (c :: acc) := by
  rw [wordsAux, if_neg h]

/-- One split step over a space: flush the current word. -/
theorem wordsAux_space (cs acc : List Char) :
    wordsAux (' ' :: cs) acc
      = (if acc.isEmpty then [] else [acc.reverse]) ++ wordsAux cs [] := by
  rw [wordsAux, if_pos rfl]
  by_cases h : acc.isEmpty <;> simp [h]

/-- A space-free tail is swallowed whole into the current word. -/
theorem wordsAux_no_space :
    ∀ (cs acc : List Char), ' ' ∉ cs → (cs = [] → acc ≠ []) →
      wordsAux cs acc = [acc.reverse ++ cs] := by
  intro cs
  induction cs with
  | nil =>
    intro acc _ hne
    have hacc : acc ≠ [] := hne rfl
    rw [wordsAux, if_neg (by simpa [List.isEmpty_iff] using hacc)]
    simp
  | cons c cs ih =>
    intro acc h hc0
    have hc : ¬ c = ' ' := fun hh => h (hh ▸ List.mem_cons_self c cs)
    rw [wordsAux_cons_ne c cs acc hc,
      ih (c :: acc) (fun hm => h (List.mem_cons_of_mem c hm))
        (fun _ => by simp)]
    simp

/-- A trailing space changes nothing: the end of the list flushes the
current word exactly like a space does. -/
theorem wordsAux_trailing_space :
    ∀ (cs acc : List Char), wordsAux (cs ++ [' ']) acc = wordsAux cs acc := by
  intro cs
  induction cs with
  | nil =>
    intro acc
    rw [List.nil_append, wordsAux_space]
    rw [show wordsAux ([] : List Char) acc
        = if acc.isEmpty then [] else [acc.reverse] from rfl]
    simp [wordsAux]
  | cons c cs ih =>
    intro acc
    by_cases hc : c = ' '
    · subst hc
      rw [List.cons_append, wordsAux_space, wordsAux_space, ih]
    · rw [List.cons_append, wordsAux_cons_ne c _ _ hc,
        wordsAux_cons_ne c _ _ hc, ih]

/-- Splitting at an interior space separator. -/
theorem wordsAux_append_space :
    ∀ (xs ys acc : List Char),
      wordsAux (xs ++ ' ' :: ys) acc
        = wordsAux (xs ++ [' ']) acc ++ wordsAux ys [] := by
  intro xs
  induction xs with
  | nil =>
    intro ys acc
    rw [List.nil_append, wordsAux_space, List.nil_append, wordsAux_space]
    simp [wordsAux]
  | cons x xs ih =>
    intro ys acc
    by_cases hx : x = ' '
    · subst hx
      rw [List.cons_append, wordsAux_space, List.cons_append, wordsAux_space,
        ih ys []]
      simp [List.append_assoc]
    · rw [List.cons_append, wordsAux_cons_ne x _ _ hx, List.cons_append,
        wordsAux_cons_ne x _ _ hx, ih ys (x :: acc)]

/-- The character data of the built marker text. -/
theorem markerText_data_aux :
    ∀ (pieces : List String) (t : String),
      (pieces.foldl (fun a p => a ++ " " ++ p) t).data
        = t.data ++ (pieces.map fun p => ' ' :: p.data).flatten := by
  intro pieces
  induction pieces with
  | nil => intro t; simp
  | cons p ps ih =>
    intro t
    rw [List.foldl_cons, ih, List.map_cons, List.flatten_cons]
    rw [string_data_append, string_data_append]
    rw [show (" " : String).data = [' '] from rfl]
    simp [List.append_assoc]

/-- Splitting the space-prefixed concatenation of the pieces gives the
concatenation of the splits of the pieces. -/
theorem wordsAux_join_spaces :
    ∀ ps : List (List Char),
      wordsAux ((ps.map fun p => ' ' :: p).flatten) []
        = (ps.map fun p => wordsAux p []).flatten := by
  intro ps
  induction ps with
  | nil => rfl
  | cons p ps ih =>
    have hstep : wordsAux ((List.map (fun p => ' ' :: p) (p :: ps)).flatten) []
        = wordsAux (p ++ (List.map (fun p => ' ' :: p) ps).flatten) [] := by
      rw [List.map_cons, List.flatten_cons, List.cons_append, wordsAux_space]
      simp
    rw [hstep]
    cases ps with
    | nil =>
      simp [List.flatten_cons]
    | cons q qs =>
      have hj : (List.map (fun p => ' ' :: p) (q :: qs)).flatten
          = ' ' :: (q ++ (List.map (fun p => ' ' :: p) qs).flatten) := by
        rw [List.map_cons, List.flatten_cons]; rfl
      rw [hj, wordsAux_append_space, wordsAux_trailing_space]
      have hih : wordsAux (q ++ (List.map (fun p => ' ' :: p) qs).flatten) []
          = (List.map (fun p => wordsAux p []) (q :: qs)).flatten := by
        rw [← ih, hj, wordsAux_space]
        simp
      rw [hih]
      simp [List.flatten_cons]

/-- Re-tokenizing the built text token-splits each piece and
concatenates the results. -/
theorem retokenize_eq_join (pieces : List String) :
    retokenize pieces = (pieces.map tokenizeText).flatten := by
  unfold retokenize tokenizeText markerText
  rw [markerText_data_aux pieces ""]
  rw [show ("" : String).data = [] from rfl, List.nil_append]
  rw [show (pieces.map fun p => ' ' :: p.data)
      = ((pieces.map fun p => p.data).map fun p => ' ' :: p) from by
    rw [List.map_map]; rfl]
  rw [wordsAux_join_spaces]
  rw [List.map_flatten, List.map_map, List.map_map]
  rfl

/-- A single word splits to itself. -/
theorem tokenizeText_word (s : String) (h1 : s.data ≠ [])
    (h2 : ' ' ∉ s.data) : tokenizeText s = [s] := by
  unfold tokenizeText
  rw [wordsAux_no_space s.data [] h2 (fun hc => absurd hc h1)]
  simp [string_mk_data]

/-- When every piece is a single word, re-tokenizing the built text
returns exactly the piece list. -/
theorem retokenize_words :
    ∀ pieces : List String,
      (∀ p ∈ pieces, p.data ≠ [] ∧ ' ' ∉ p.data) →
      retokenize pieces = pieces := by
  intro pieces
  rw [retokenize_eq_join]
  induction pieces with
  | nil => intro _; rfl
  | cons p ps ih =>
    intro h
    have hp := h p (List.mem_cons_self p ps)
    rw [List.map_cons, List.flatten_cons, tokenizeText_word p hp.1 hp.2,
      ih fun q hq => h q (List.mem_cons_of_mem p hq)]
    rfl

/-- The scan over a concatenation is the scan over the second part
started from the scan over the first. -/
theorem markRun_append (sp1 sp2 : Span) :
    ∀ (xs ys : List String) (st : MState) (k : Nat),
      markRun sp1 sp2 st k (xs ++ ys)
        = markRun sp1 sp2 (markRun sp1 sp2 st k xs) (k + xs.length) ys := by
  intro xs
  induction xs with
  | nil => intro ys st k; rfl
  | cons x xs ih =>
    intro ys st k
    rw [List.cons_append]
    rw [show markRun sp1 sp2 st k (x :: (xs ++ ys))
        = markRun sp1 sp2 (markStep sp1 sp2 k x st) (k + 1) (xs ++ ys)
      from rfl]
    rw [ih ys (markStep sp1 sp2 k x st) (k + 1)]
    rw [show markRun sp1 sp2 st k (x :: xs)
        = markRun sp1 sp2 (markStep sp1 sp2 k x st) (k + 1) xs from rfl]
    have hk : k + 1 + xs.length = k + (x :: xs).length := by
      simp [List.length_cons]; omega
    rw [hk]

/-- A step at a position that is no span boundary only emits the token
text. -/
theorem markStep_no_event (sp1 sp2 : Span) (k : Nat) (t : String)
    (st : MState) (h1 : ¬ k = sp1.start) (h2 : ¬ k = sp1.stop)
    (h3 : ¬ k = sp2.start) (h4 : ¬ k = sp2.stop) :
    markStep sp1 sp2 k t st
      = { st with pieces := st.pieces ++ [t], offset := st.offset + 1 } := by
  simp [markStep, h1, h2, h3, h4]

/-- The scan over a segment containing no span boundary appends the
tokens and advances the offset. -/
theorem markRun_no_events (sp1 sp2 : Span) :
    ∀ (ts : List String) (st : MState) (k : Nat),
      (∀ i, k ≤ i → i < k + ts.length →
        ¬ i = sp1.start ∧ ¬ i = sp1.stop ∧ ¬ i = sp2.start ∧ ¬ i = sp2.stop) →
      markRun sp1 sp2 st k ts
        = { st with pieces := st.pieces ++ ts,
                    offset := st.offset + ts.length } := by
  intro ts
  induction ts with
  | nil =>
    intro st k _
    simp [markRun]
  | cons t ts ih =>
    intro st k h
    have hk := h k (Nat.le_refl k) (by simp [List.length_cons])
    rw [show markRun sp1 sp2 st k (t :: ts)
        = markRun sp1 sp2 (markStep sp1 sp2 k t st) (k + 1) ts from rfl]
    rw [markStep_no_event sp1 sp2 k t st hk.1 hk.2.1 hk.2.2.1 hk.2.2.2]
    rw [ih _ (k + 1) fun i hi1 hi2 => h i (by omega)
      (by simp only [List.length_cons] at hi2 ⊢; omega)]
    simp [List.append_assoc]
    all_goals omega


/-- The scan over the tail of span 1 (all positions after its start,
up to and including its stop, with no span-2 boundary among them):
appends the tokens and the closing marker, recording the stop id. -/
theorem markRun_span1_tail (sp1 sp2 : Span) :
    ∀ (ts : List String) (st : MState) (k : Nat),
      ts ≠ [] →
      k + ts.length = sp1.stop + 1 →
      (∀ i, k ≤ i → i < k + ts.length →
        ¬ i = sp1.start ∧ ¬ i = sp2.start ∧ ¬ i = sp2.stop) →
      markRun sp1 sp2 st k ts
        = { st with pieces := st.pieces ++ ts ++ ["</e1>"],
                    offset := st.offset + ts.length + 1,
                    s1stop := some (st.offset + ts.length) } := by
  intro ts
  induction ts with
  | nil => intro st k hne; exact absurd rfl hne
  | cons t ts ih =>
    intro st k _ hstop h
    have he := h k (Nat.le_refl k) (by simp [List.length_cons])
    cases ts with
    | nil =>
      have hk : k = sp1.stop := by
        simp only [List.length_cons, List.length_nil] at hstop; omega
      subst hk
      rw [show markRun sp1 sp2 st sp1.stop [t]
          = markStep sp1 sp2 sp1.stop t st from rfl]
      simp [markStep, he.1, he.2.1, he.2.2, List.append_assoc]
    | cons t2 ts2 =>
      have hkstop : ¬ k = sp1.stop := by
        simp only [List.length_cons] at hstop; omega
      rw [show markRun sp1 sp2 st k (t :: t2 :: ts2)
          = markRun sp1 sp2 (markStep sp1 sp2 k t st) (k + 1) (t2 :: ts2)
        from rfl]
      rw [markStep_no_event sp1 sp2 k t st he.1 hkstop he.2.1 he.2.2]
      rw [ih _ (k + 1) (by simp)
        (by simp only [List.length_cons] at hstop ⊢; omega)
        (fun i hi1 hi2 => h i (by omega)
          (by simp only [List.length_cons] at hi2 ⊢; omega))]
      simp [List.append_assoc]
      all_goals omega

/-- The scan over the whole of span 1 (start at the first position,
stop at the last, no span-2 boundary inside): brackets the tokens with
the `e1` markers, records the start and stop ids and resolves
`entity_one_is_first` in favour of span 1 when it is still unset. -/
theorem markRun_span1_seg (sp1 sp2 : Span) :
    ∀ (ts : List String) (st : MState) (k : Nat),
      ts ≠ [] →
      k = sp1.start →
      k + ts.length = sp1.stop + 1 →
      (∀ i, k ≤ i → i < k + ts.length → ¬ i = sp2.start ∧ ¬ i = sp2.stop) →
      markRun sp1 sp2 st k ts
        = { st with
            pieces := st.pieces ++ ["<e1>"] ++ ts ++ ["</e1>"],
            offset := st.offset + ts.length + 2,
            e1first := some (st.e1first.getD true),
            s1start := some (st.offset + 1),
            s1stop := some (st.offset + ts.length + 1) } := by
  intro ts st k hne hkst hstop h
  subst hkst
  have he := h sp1.start (Nat.le_refl _) (by
    cases ts with
    | nil => exact absurd rfl hne
    | cons a l => simp [List.length_cons])
  cases ts with
  | nil => exact absurd rfl hne
  | cons t ts =>
    cases ts with
    | nil =>
      have hk : sp1.start = sp1.stop := by
        simp only [List.length_cons, List.length_nil] at hstop; omega
      rw [show markRun sp1 sp2 st sp1.start [t]
          = markStep sp1 sp2 sp1.start t st from rfl]
      simp [markStep, he.1, he.2, ← hk, List.append_assoc]
    | cons t2 ts2 =>
      have hkstop : ¬ sp1.start = sp1.stop := by
        simp only [List.length_cons] at hstop; omega
      rw [show markRun sp1 sp2 st sp1.start (t :: t2 :: ts2)
          = markRun sp1 sp2 (markStep sp1 sp2 sp1.start t st)
              (sp1.start + 1) (t2 :: ts2) from rfl]
      have hstep : markStep sp1 sp2 sp1.start t st
          = { st with
              pieces := st.pieces ++ ["<e1>", t],
              offset := st.offset + 2,
              e1first := some (st.e1first.getD true),
              s1start := some (st.offset + 1) } := by
        simp [markStep, he.1, he.2, hkstop, List.append_assoc]
      rw [hstep]
      rw [markRun_span1_tail sp1 sp2 (t2 :: ts2) _ (sp1.start + 1)
        (by simp)
        (by simp only [List.length_cons] at hstop ⊢; omega)
        (fun i hi1 hi2 => by
          have hh := h i (by omega)
            (by simp only [List.length_cons] at hi2 ⊢; omega)
          exact ⟨by omega, hh.1, hh.2⟩)]
      simp [List.append_assoc]
      all_goals omega

/-- The scan over the tail of span 2: symmetric to
`markRun_span1_tail`. -/
theorem markRun_span2_tail (sp1 sp2 : Span) :
    ∀ (ts : List String) (st : MState) (k : Nat),
      ts ≠ [] →
      k + ts.length = sp2.stop + 1 →
      (∀ i, k ≤ i → i < k + ts.length →
        ¬ i = sp2.start ∧ ¬ i = sp1.start ∧ ¬ i = sp1.stop) →
      markRun sp1 sp2 st k ts
        = { st with pieces := st.pieces ++ ts ++ ["</e2>"],
                    offset := st.offset + ts.length + 1,
                    s2stop := some (st.offset + ts.length) } := by
  intro ts
  induction ts with
  | nil => intro st k hne; exact absurd rfl hne
  | cons t ts ih =>
    intro st k _ hstop h
    have he := h k (Nat.le_refl k) (by simp [List.length_cons])
    cases ts with
    | nil =>
      have hk : k = sp2.stop := by
        simp only [List.length_cons, List.length_nil] at hstop; omega
      subst hk
      rw [show markRun sp1 sp2 st sp2.stop [t]
          = markStep sp1 sp2 sp2.stop t st from rfl]
      simp [markStep, he.1, he.2.1, he.2.2, List.append_assoc]
    | cons t2 ts2 =>
      have hkstop : ¬ k = sp2.stop := by
        simp only [List.length_cons] at hstop; omega
      rw [show markRun sp1 sp2 st k (t :: t2 :: ts2)
          = markRun sp1 sp2 (markStep sp1 sp2 k t st) (k + 1) (t2 :: ts2)
        from rfl]
      rw [markStep_no_event sp1 sp2 k t st he.2.1 he.2.2 he.1 hkstop]
      rw [ih _ (k + 1) (by simp)
        (by simp only [List.length_cons] at hstop ⊢; omega)
        (fun i hi1 hi2 => h i (by omega)
          (by simp only [List.length_cons] at hi2 ⊢; omega))]
      simp [List.append_assoc]
      all_goals omega

/-- The scan over the whole of span 2: brackets the tokens with the
`e2` markers, records the start and stop ids and resolves
`entity_one_is_first` against span 1 when it is still unset. -/
theorem markRun_span2_seg (sp1 sp2 : Span) :
    ∀ (ts : List String) (st : MState) (k : Nat),
      ts ≠ [] →
      k = sp2.start →
      k + ts.length = sp2.stop + 1 →
      (∀ i, k ≤ i → i < k + ts.length → ¬ i = sp1.start ∧ ¬ i = sp1.stop) →
      markRun sp1 sp2 st k ts
        = { st with
            pieces := st.pieces ++ ["<e2>"] ++ ts ++ ["</e2>"],
            offset := st.offset + ts.length + 2,
            e1first := some (st.e1first.getD false),
            s2start := some (st.offset + 1),
            s2stop := some (st.offset + ts.length + 1) } := by
  intro ts st k hne hkst hstop h
  subst hkst
  have he := h sp2.start (Nat.le_refl _) (by
    cases ts with
    | nil => exact absurd rfl hne
    | cons a l => simp [List.length_cons])
  cases ts with
  | nil => exact absurd rfl hne
  | cons t ts =>
    cases ts with
    | nil =>
      have hk : sp2.start = sp2.stop := by
        simp only [List.length_cons, List.length_nil] at hstop; omega
      rw [show markRun sp1 sp2 st sp2.start [t]
          = markStep sp1 sp2 sp2.start t st from rfl]
      simp [markStep, he.1, he.2, ← hk, List.append_assoc]
    | cons t2 ts2 =>
      have hkstop : ¬ sp2.start = sp2.stop := by
        simp only [List.length_cons] at hstop; omega
      rw [show markRun sp1 sp2 st sp2.start (t :: t2 :: ts2)
          = markRun sp1 sp2 (markStep sp1 sp2 sp2.start t st)
              (sp2.start + 1) (t2 :: ts2) from rfl]
      have hstep : markStep sp1 sp2 sp2.start t st
          = { st with
              pieces := st.pieces ++ ["<e2>", t],
              offset := st.offset + 2,
              e1first := some (st.e1first.getD false),
              s2start := some (st.offset + 1) } := by
        simp [markStep, he.1, he.2, hkstop, List.append_assoc]
      rw [hstep]
      rw [markRun_span2_tail sp1 sp2 (t2 :: ts2) _ (sp2.start + 1)
        (by simp)
        (by simp only [List.length_cons] at hstop ⊢; omega)
        (fun i hi1 hi2 => by
          have hh := h i (by omega)
            (by simp only [List.length_cons] at hi2 ⊢; omega)
          exact ⟨by omega, hh.1, hh.2⟩)]
      simp [List.append_assoc]
      all_goals omega


/-- The whole scan for a sentence decomposed into five segments with
span 1 before span 2 in reading order. -/
theorem markRun_five_ordered (sp1 sp2 : Span) (A B C D E : List String)
    (hA : A.length = sp1.start)
    (hBne : B ≠ []) (hB : sp1.start + B.length = sp1.stop + 1)
    (hC : sp1.stop + 1 + C.length = sp2.start)
    (hDne : D ≠ []) (hD : sp2.start + D.length = sp2.stop + 1) :
    markRun sp1 sp2 initMState 0 (A ++ (B ++ (C ++ (D ++ E))))
      = { pieces := A ++ ["<e1>"] ++ B ++ ["</e1>"] ++ C ++ ["<e2>"]
            ++ D ++ ["</e2>"] ++ E,
          offset := A.length + B.length + C.length + D.length + E.length + 4,
          e1first := some true,
          s1start := some (A.length + 1),
          s1stop := some (A.length + B.length + 1),
          s2start := some (A.length + B.length + C.length + 3),
          s2stop := some (A.length + B.length + C.length + D.length + 3) } := by
  have hBl : 0 < B.length := List.length_pos.mpr hBne
  have hDl : 0 < D.length := List.length_pos.mpr hDne
  rw [markRun_append sp1 sp2 A (B ++ (C ++ (D ++ E))) initMState 0]
  rw [markRun_no_events sp1 sp2 A initMState 0
    fun i hi1 hi2 => ⟨by omega, by omega, by omega, by omega⟩]
  rw [markRun_append sp1 sp2 B (C ++ (D ++ E)) _ (0 + A.length)]
  rw [markRun_span1_seg sp1 sp2 B _ (0 + A.length) hBne (by omega) (by omega)
    fun i hi1 hi2 => ⟨by omega, by omega⟩]
  rw [markRun_append sp1 sp2 C (D ++ E) _ (0 + A.length + B.length)]
  rw [markRun_no_events sp1 sp2 C _ (0 + A.length + B.length)
    fun i hi1 hi2 => ⟨by omega, by omega, by omega, by omega⟩]
  rw [markRun_append sp1 sp2 D E _ (0 + A.length + B.length + C.length)]
  rw [markRun_span2_seg sp1 sp2 D _ (0 + A.length + B.length + C.length)
    hDne (by omega) (by omega) fun i hi1 hi2 => ⟨by omega, by omega⟩]
  rw [markRun_no_events sp1 sp2 E _
    (0 + A.length + B.length + C.length + D.length)
    fun i hi1 hi2 => ⟨by omega, by omega, by omega, by omega⟩]
  simp [initMState, List.append_assoc]
  all_goals omega

/-- The whole scan for a sentence decomposed into five segments with
span 2 before span 1 in reading order. -/
theorem markRun_five_swapped (sp1 sp2 : Span) (A B C D E : List String)
    (hA : A.length = sp2.start)
    (hBne : B ≠ []) (hB : sp2.start + B.length = sp2.stop + 1)
    (hC : sp2.stop + 1 + C.length = sp1.start)
    (hDne : D ≠ []) (hD : sp1.start + D.length = sp1.stop + 1) :
    markRun sp1 sp2 initMState 0 (A ++ (B ++ (C ++ (D ++ E))))
      = { pieces := A ++ ["<e2>"] ++ B ++ ["</e2>"] ++ C ++ ["<e1>"]
            ++ D ++ ["</e1>"] ++ E,
          offset := A.length + B.length + C.length + D.length + E.length + 4,
          e1first := some false,
          s2start := some (A.length + 1),
          s2stop := some (A.length + B.length + 1),
          s1start := some (A.length + B.length + C.length + 3),
          s1stop := some (A.length + B.length + C.length + D.length + 3) } := by
  have hBl : 0 < B.length := List.length_pos.mpr hBne
  have hDl : 0 < D.length := List.length_pos.mpr hDne
  rw [markRun_append sp1 sp2 A (B ++ (C ++ (D ++ E))) initMState 0]
  rw [markRun_no_events sp1 sp2 A initMState 0
    fun i hi1 hi2 => ⟨by omega, by omega, by omega, by omega⟩]
  rw [markRun_append sp1 sp2 B (C ++ (D ++ E)) _ (0 + A.length)]
  rw [markRun_span2_seg sp1 sp2 B _ (0 + A.length) hBne (by omega) (by omega)
    fun i hi1 hi2 => ⟨by omega, by omega⟩]
  rw [markRun_append sp1 sp2 C (D ++ E) _ (0 + A.length + B.length)]
  rw [markRun_no_events sp1 sp2 C _ (0 + A.length + B.length)
    fun i hi1 hi2 => ⟨by omega, by omega, by omega, by omega⟩]
  rw [markRun_append sp1 sp2 D E _ (0 + A.length + B.length + C.length)]
  rw [markRun_span1_seg sp1 sp2 D _ (0 + A.length + B.length + C.length)
    hDne (by omega) (by omega) fun i hi1 hi2 => ⟨by omega, by omega⟩]
  rw [markRun_no_events sp1 sp2 E _
    (0 + A.length + B.length + C.length + D.length)
    fun i hi1 hi2 => ⟨by omega, by omega, by omega, by omega⟩]
  simp [initMState, List.append_assoc]
  all_goals omega


/-- `getD` at the length of a prefix reads the element right after it. -/
theorem getD_append_length {α : Type} (xs : List α) (y : α) (ys : List α)
    (d : α) : (xs ++ y :: ys).getD xs.length d = y := by
  induction xs with
  | nil => rfl
  | cons x xs ih => simpa using ih

/-- The claim-side description of the rewritten token sequence: the
original tokens with the first-occurring span bracketed by
`openA`/`closeA` and the second-occurring span bracketed by
`openB`/`closeB`, everything in original relative order. -/
def markedTokens (toks : List String) (firstSpan secondSpan : Span)
    (openA closeA openB closeB : String) : List String :=
  toks.take firstSpan.start ++ [openA]
    ++ (toks.drop firstSpan.start).take (firstSpan.stop + 1 - firstSpan.start)
    ++ [closeA]
    ++ (toks.drop (firstSpan.stop + 1)).take
        (secondSpan.start - (firstSpan.stop + 1))
    ++ [openB]
    ++ (toks.drop secondSpan.start).take
        (secondSpan.stop + 1 - secondSpan.start)
    ++ [closeB]
    ++ toks.drop (secondSpan.stop + 1)

/-- `add_entity_markers` when `span_1` precedes `span_2` in reading
order: returns the marker-bracketed token list and the marker spans in
argument order. -/
theorem add_entity_markers_ordered (toks : List String) (sp1 sp2 : Span)
    (hw : ∀ t ∈ toks, t.data ≠ [] ∧ ' ' ∉ t.data)
    (h1 : sp1.start ≤ sp1.stop) (h1n : sp1.stop < toks.length)
    (h2 : sp2.start ≤ sp2.stop) (h2n : sp2.stop < toks.length)
    (hlt : sp1.stop < sp2.start) :
    ∃ expToks e1span e2span,
      add_entity_markers toks sp1 sp2 = Except.ok (expToks, (e1span, e2span))
      ∧ e1span.text = "<e1>" ∧ e2span.text = "<e2>"
      ∧ expToks.getD e1span.pos "" = "<e1>"
      ∧ expToks.getD e2span.pos "" = "<e2>"
      ∧ expToks = markedTokens toks sp1 sp2 "<e1>" "</e1>" "<e2>" "</e2>" := by
  set A := toks.take sp1.start with hAdef
  set B := (toks.drop sp1.start).take (sp1.stop + 1 - sp1.start) with hBdef
  set C := (toks.drop (sp1.stop + 1)).take (sp2.start - (sp1.stop + 1))
    with hCdef
  set D := (toks.drop sp2.start).take (sp2.stop + 1 - sp2.start) with hDdef
  set E := toks.drop (sp2.stop + 1) with hEdef
  have hAlen : A.length = sp1.start := by
    rw [hAdef, List.length_take]; omega
  have hBlen : B.length = sp1.stop + 1 - sp1.start := by
    rw [hBdef, List.length_take, List.length_drop]; omega
  have hClen : C.length = sp2.start - (sp1.stop + 1) := by
    rw [hCdef, List.length_take, List.length_drop]; omega
  have hDlen : D.length = sp2.stop + 1 - sp2.start := by
    rw [hDdef, List.length_take, List.length_drop]; omega
  have hBne : B ≠ [] := by
    have hpos : 0 < B.length := by rw [hBlen]; omega
    exact List.length_pos.mp hpos
  have hDne : D ≠ [] := by
    have hpos : 0 < D.length := by rw [hDlen]; omega
    exact List.length_pos.mp hpos
  have hd1 : toks.drop sp2.start = D ++ E := by
    rw [hDdef, hEdef,
      show toks.drop (sp2.stop + 1)
        = (toks.drop sp2.start).drop (sp2.stop + 1 - sp2.start) from by
      rw [List.drop_drop]; congr 1; omega]
    exact (List.take_append_drop _ _).symm
  have hd2 : toks.drop (sp1.stop + 1) = C ++ (D ++ E) := by
    rw [← hd1, hCdef,
      show toks.drop sp2.start
        = (toks.drop (sp1.stop + 1)).drop (sp2.start - (sp1.stop + 1)) from by
      rw [List.drop_drop]; congr 1; omega]
    exact (List.take_append_drop _ _).symm
  have hd3 : toks.drop sp1.start = B ++ (C ++ (D ++ E)) := by
    rw [← hd2, hBdef,
      show toks.drop (sp1.stop + 1)
        = (toks.drop sp1.start).drop (sp1.stop + 1 - sp1.start) from by
      rw [List.drop_drop]; congr 1; omega]
    exact (List.take_append_drop _ _).symm
  have hdecomp : toks = A ++ (B ++ (C ++ (D ++ E))) := by
    rw [← hd3, hAdef]
    exact (List.take_append_drop _ _).symm
  have hrun : markRun sp1 sp2 initMState 0 toks
      = { pieces := A ++ ["<e1>"] ++ B ++ ["</e1>"] ++ C ++ ["<e2>"]
            ++ D ++ ["</e2>"] ++ E,
          offset := A.length + B.length + C.length + D.length + E.length + 4,
          e1first := some true,
          s1start := some (A.length + 1),
          s1stop := some (A.length + B.length + 1),
          s2start := some (A.length + B.length + C.length + 3),
          s2stop := some (A.length + B.length + C.length + D.length + 3) } := by
    conv_lhs => rw [hdecomp]
    exact markRun_five_ordered sp1 sp2 A B C D E hAlen hBne
      (by rw [hBlen]; omega) (by rw [hClen]; omega) hDne
      (by rw [hDlen]; omega)
  have hsubA : A ⊆ toks := by
    rw [hAdef]; exact (List.take_sublist _ _).subset
  have hsubB : B ⊆ toks := by
    rw [hBdef]
    exact ((List.take_sublist _ _).trans (List.drop_sublist _ _)).subset
  have hsubC : C ⊆ toks := by
    rw [hCdef]
    exact ((List.take_sublist _ _).trans (List.drop_sublist _ _)).subset
  have hsubD : D ⊆ toks := by
    rw [hDdef]
    exact ((List.take_sublist _ _).trans (List.drop_sublist _ _)).subset
  have hsubE : E ⊆ toks := by
    rw [hEdef]; exact (List.drop_sublist _ _).subset
  have hwords : ∀ p ∈ A ++ ["<e1>"] ++ B ++ ["</e1>"] ++ C ++ ["<e2>"]
      ++ D ++ ["</e2>"] ++ E, p.data ≠ [] ∧ ' ' ∉ p.data := by
    intro p hp
    simp only [List.mem_append, List.mem_singleton] at hp
    rcases hp with ((((((((hp | hp) | hp) | hp) | hp) | hp) | hp) | hp) | hp)
    · exact hw p (hsubA hp)
    · subst hp; exact ⟨by decide, by decide⟩
    · exact hw p (hsubB hp)
    · subst hp; exact ⟨by decide, by decide⟩
    · exact hw p (hsubC hp)
    · subst hp; exact ⟨by decide, by decide⟩
    · exact hw p (hsubD hp)
    · subst hp; exact ⟨by decide, by decide⟩
    · exact hw p (hsubE hp)
  have hretok : retokenize (A ++ ["<e1>"] ++ B ++ ["</e1>"] ++ C ++ ["<e2>"]
      ++ D ++ ["</e2>"] ++ E)
      = A ++ ["<e1>"] ++ B ++ ["</e1>"] ++ C ++ ["<e2>"] ++ D ++ ["</e2>"]
        ++ E :=
    retokenize_words _ hwords
  have hshape1 : A ++ ["<e1>"] ++ B ++ ["</e1>"] ++ C ++ ["<e2>"]
      ++ D ++ ["</e2>"] ++ E
      = A ++ "<e1>" :: (B ++ "</e1>" :: (C ++ "<e2>" :: (D ++ "</e2>" :: E)))
      := by
    simp [List.append_assoc]
  have hshape2 : A ++ ["<e1>"] ++ B ++ ["</e1>"] ++ C ++ ["<e2>"]
      ++ D ++ ["</e2>"] ++ E
      = (A ++ "<e1>" :: (B ++ "</e1>" :: C)) ++ "<e2>" :: (D ++ "</e2>" :: E)
      := by
    simp [List.append_assoc]
  have hgetD1 : (A ++ ["<e1>"] ++ B ++ ["</e1>"] ++ C ++ ["<e2>"]
      ++ D ++ ["</e2>"] ++ E).getD A.length "" = "<e1>" := by
    rw [hshape1]
    exact getD_append_length A "<e1>" _ ""
  have hlen2 : A.length + B.length + C.length + 2
      = (A ++ "<e1>" :: (B ++ "</e1>" :: C)).length := by
    simp [List.length_append, List.length_cons]
    omega
  have hgetD2 : (A ++ ["<e1>"] ++ B ++ ["</e1>"] ++ C ++ ["<e2>"]
      ++ D ++ ["</e2>"] ++ E).getD (A.length + B.length + C.length + 2) ""
      = "<e2>" := by
    rw [hshape2, hlen2]
    exact getD_append_length _ "<e2>" _ ""
  refine ⟨A ++ ["<e1>"] ++ B ++ ["</e1>"] ++ C ++ ["<e2>"] ++ D ++ ["</e2>"]
      ++ E,
    ⟨A.length, "<e1>"⟩, ⟨A.length + B.length + C.length + 2, "<e2>"⟩,
    ?_, rfl, rfl, hgetD1, hgetD2, ?_⟩
  · unfold add_entity_markers
    rw [hrun]
    dsimp only
    rw [hretok]
    rw [show A.length + 1 - 1 = A.length from by omega,
      show A.length + B.length + C.length + 3 - 1
        = A.length + B.length + C.length + 2 from by omega]
    rw [hgetD1, hgetD2]
    simp
  · unfold markedTokens
    rw [hAdef, hBdef, hCdef, hDdef, hEdef]

/-- `add_entity_markers` when `span_2` precedes `span_1` in reading
order: returns the marker-bracketed token list and the marker spans in
swapped (reading) order. -/
theorem add_entity_markers_swapped (toks : List String) (sp1 sp2 : Span)
    (hw : ∀ t ∈ toks, t.data ≠ [] ∧ ' ' ∉ t.data)
    (h1 : sp1.start ≤ sp1.stop) (h1n : sp1.stop < toks.length)
    (h2 : sp2.start ≤ sp2.stop) (h2n : sp2.stop < toks.length)
    (hlt : sp2.stop < sp1.start) :
    ∃ expToks e1span e2span,
      add_entity_markers toks sp1 sp2 = Except.ok (expToks, (e2span, e1span))
      ∧ e1span.text = "<e1>" ∧ e2span.text = "<e2>"
      ∧ expToks.getD e1span.pos "" = "<e1>"
      ∧ expToks.getD e2span.pos "" = "<e2>"
      ∧ expToks = markedTokens toks sp2 sp1 "<e2>" "</e2>" "<e1>" "</e1>" := by
  set A := toks.take sp2.start with hAdef
  set B := (toks.drop sp2.start).take (sp2.stop + 1 - sp2.start) with hBdef
  set C := (toks.drop (sp2.stop + 1)).take (sp1.start - (sp2.stop + 1))
    with hCdef
  set D := (toks.drop sp1.start).take (sp1.stop + 1 - sp1.start) with hDdef
  set E := toks.drop (sp1.stop + 1) with hEdef
  have hAlen : A.length = sp2.start := by
    rw [hAdef, List.length_take]; omega
  have hBlen : B.length = sp2.stop + 1 - sp2.start := by
    rw [hBdef, List.length_take, List.length_drop]; omega
  have hClen : C.length = sp1.start - (sp2.stop + 1) := by
    rw [hCdef, List.length_take, List.length_drop]; omega
  have hDlen : D.length = sp1.stop + 1 - sp1.start := by
    rw [hDdef, List.length_take, List.length_drop]; omega
  have hBne : B ≠ [] := by
    have hpos : 0 < B.length := by rw [hBlen]; omega
    exact List.length_pos.mp hpos
  have hDne : D ≠ [] := by
    have hpos : 0 < D.length := by rw [hDlen]; omega
    exact List.length_pos.mp hpos
  have hd1 : toks.drop sp1.start = D ++ E := by
    rw [hDdef, hEdef,
      show toks.drop (sp1.stop + 1)
        = (toks.drop sp1.start).drop (sp1.stop + 1 - sp1.start) from by
      rw [List.drop_drop]; congr 1; omega]
    exact (List.take_append_drop _ _).symm
  have hd2 : toks.drop (sp2.stop + 1) = C ++ (D ++ E) := by
    rw [← hd1, hCdef,
      show toks.drop sp1.start
        = (toks.drop (sp2.stop + 1)).drop (sp1.start - (sp2.stop + 1)) from by
      rw [List.drop_drop]; congr 1; omega]
    exact (List.take_append_drop _ _).symm
  have hd3 : toks.drop sp2.start = B ++ (C ++ (D ++ E)) := by
    rw [← hd2, hBdef,
      show toks.drop (sp2.stop + 1)
        = (toks.drop sp2.start).drop (sp2.stop + 1 - sp2.start) from by
      rw [List.drop_drop]; congr 1; omega]
    exact (List.take_append_drop _ _).symm
  have hdecomp : toks = A ++ (B ++ (C ++ (D ++ E))) := by
    rw [← hd3, hAdef]
    exact (List.take_append_drop _ _).symm
  have hrun : markRun sp1 sp2 initMState 0 toks
      = { pieces := A ++ ["<e2>"] ++ B ++ ["</e2>"] ++ C ++ ["<e1>"]
            ++ D ++ ["</e1>"] ++ E,
          offset := A.length + B.length + C.length + D.length + E.length + 4,
          e1first := some false,
          s2start := some (A.length + 1),
          s2stop := some (A.length + B.length + 1),
          s1start := some (A.length + B.length + C.length + 3),
          s1stop := some (A.length + B.length + C.length + D.length + 3) } := by
    conv_lhs => rw [hdecomp]
    exact markRun_five_swapped sp1 sp2 A B C D E hAlen hBne
      (by rw [hBlen]; omega) (by rw [hClen]; omega) hDne
      (by rw [hDlen]; omega)
  have hsubA : A ⊆ toks := by
    rw [hAdef]; exact (List.take_sublist _ _).subset
  have hsubB : B ⊆ toks := by
    rw [hBdef]
    exact ((List.take_sublist _ _).trans (List.drop_sublist _ _)).subset
  have hsubC : C ⊆ toks := by
    rw [hCdef]
    exact ((List.take_sublist _ _).trans (List.drop_sublist _ _)).subset
  have hsubD : D ⊆ toks := by
    rw [hDdef]
    exact ((List.take_sublist _ _).trans (List.drop_sublist _ _)).subset
  have hsubE : E ⊆ toks := by
    rw [hEdef]; exact (List.drop_sublist _ _).subset
  have hwords : ∀ p ∈ A ++ ["<e2>"] ++ B ++ ["</e2>"] ++ C ++ ["<e1>"]
      ++ D ++ ["</e1>"] ++ E, p.data ≠ [] ∧ ' ' ∉ p.data := by
    intro p hp
    simp only [List.mem_append, List.mem_singleton] at hp
    rcases hp with ((((((((hp | hp) | hp) | hp) | hp) | hp) | hp) | hp) | hp)
    · exact hw p (hsubA hp)
    · subst hp; exact ⟨by decide, by decide⟩
    · exact hw p (hsubB hp)
    · subst hp; exact ⟨by decide, by decide⟩
    · exact hw p (hsubC hp)
    · subst hp; exact ⟨by decide, by decide⟩
    · exact hw p (hsubD hp)
    · subst hp; exact ⟨by decide, by decide⟩
    · exact hw p (hsubE hp)
  have hretok : retokenize (A ++ ["<e2>"] ++ B ++ ["</e2>"] ++ C ++ ["<e1>"]
      ++ D ++ ["</e1>"] ++ E)
      = A ++ ["<e2>"] ++ B ++ ["</e2>"] ++ C ++ ["<e1>"] ++ D ++ ["</e1>"]
        ++ E :=
    retokenize_words _ hwords
  have hshape1 : A ++ ["<e2>"] ++ B ++ ["</e2>"] ++ C ++ ["<e1>"]
      ++ D ++ ["</e1>"] ++ E
      = A ++ "<e2>" :: (B ++ "</e2>" :: (C ++ "<e1>" :: (D ++ "</e1>" :: E)))
      := by
    simp [List.append_assoc]
  have hshape2 : A ++ ["<e2>"] ++ B ++ ["</e2>"] ++ C ++ ["<e1>"]
      ++ D ++ ["</e1>"] ++ E
      = (A ++ "<e2>" :: (B ++ "</e2>" :: C)) ++ "<e1>" :: (D ++ "</e1>" :: E)
      := by
    simp [List.append_assoc]
  have hgetD2 : (A ++ ["<e2>"] ++ B ++ ["</e2>"] ++ C ++ ["<e1>"]
      ++ D ++ ["</e1>"] ++ E).getD A.length "" = "<e2>" := by
    rw [hshape1]
    exact getD_append_length A "<e2>" _ ""
  have hlen2 : A.length + B.length + C.length + 2
      = (A ++ "<e2>" :: (B ++ "</e2>" :: C)).length := by
    simp [List.length_append, List.length_cons]
    omega
  have hgetD1 : (A ++ ["<e2>"] ++ B ++ ["</e2>"] ++ C ++ ["<e1>"]
      ++ D ++ ["</e1>"] ++ E).getD (A.length + B.length + C.length + 2) ""
      = "<e1>" := by
    rw [hshape2, hlen2]
    exact getD_append_length _ "<e1>" _ ""
  refine ⟨A ++ ["<e2>"] ++ B ++ ["</e2>"] ++ C ++ ["<e1>"] ++ D ++ ["</e1>"]
      ++ E,
    ⟨A.length + B.length + C.length + 2, "<e1>"⟩, ⟨A.length, "<e2>"⟩,
    ?_, rfl, rfl, hgetD1, hgetD2, ?_⟩
  · unfold add_entity_markers
    rw [hrun]
    dsimp only
    rw [hretok]
    rw [show A.length + 1 - 1 = A.length from by omega,
      show A.length + B.length + C.length + 3 - 1
        = A.length + B.length + C.length + 2 from by omega]
    rw [hgetD1, hgetD2]
    simp
  · unfold markedTokens
    rw [hAdef, hBdef, hCdef, hDdef, hEdef]

/-- C5: for non-overlapping contiguous spans of a sentence of plain
word tokens, `add_entity_markers` succeeds and returns (1) the
rewritten sentence whose tokens are the original tokens with
`<e1>`/`</e1>` inserted around `span_1` and `<e2>`/`</e2>` inserted
around `span_2` in original relative order, and (2) the two
single-token marker spans `<e1>`/`<e2>`, in `(span_1, span_2)` argument
order when `span_1` precedes `span_2` in reading order
(`entity_one_is_first`) and swapped when `span_2` precedes `span_1`. -/
theorem C5_marker_rewrite (toks : List String) (sp1 sp2 : Span)
    (hw : ∀ t ∈ toks, t.data ≠ [] ∧ ' ' ∉ t.data)
    (h1 : sp1.start ≤ sp1.stop) (h1n : sp1.stop < toks.length)
    (h2 : sp2.start ≤ sp2.stop) (h2n : sp2.stop < toks.length)
    (hdisj : sp1.stop < sp2.start ∨ sp2.stop < sp1.start) :
    ∃ expToks e1span e2span,
      add_entity_markers toks sp1 sp2
        = Except.ok (expToks,
            if sp1.start < sp2.start then (e1span, e2span)
            else (e2span, e1span))
      ∧ e1span.text = "<e1>" ∧ e2span.text = "<e2>"
      ∧ expToks.getD e1span.pos "" = "<e1>"
      ∧ expToks.getD e2span.pos "" = "<e2>"
      ∧ expToks = (if sp1.start < sp2.start then
            markedTokens toks sp1 sp2 "<e1>" "</e1>" "<e2>" "</e2>"
          else markedTokens toks sp2 sp1 "<e2>" "</e2>" "<e1>" "</e1>") := by
  rcases hdisj with hlt | hlt
  · obtain ⟨expToks, e1span, e2span, hok, h3, h4, h5, h6, h7⟩ :=
      add_entity_markers_ordered toks sp1 sp2 hw h1 h1n h2 h2n hlt
    have hss : sp1.start < sp2.start := by omega
    exact ⟨expToks, e1span, e2span, by rw [if_pos hss]; exact hok, h3, h4,
      h5, h6, by rw [if_pos hss]; exact h7⟩
  · obtain ⟨expToks, e1span, e2span, hok, h3, h4, h5, h6, h7⟩ :=
      add_entity_markers_swapped toks sp1 sp2 hw h1 h1n h2 h2n hlt
    have hss : ¬ sp1.start < sp2.start := by omega
    exact ⟨expToks, e1span, e2span, by rw [if_neg hss]; exact hok, h3, h4,
      h5, h6, by rw [if_neg hss]; exact h7⟩


/-- Concrete sentence for the C5 witness. -/
def c5toks : List String := ["A", "B", "C", "D"]

/-- Span over token 1 (`B`) of `c5toks`. -/
def c5span1 : Span := ⟨0, "B", 1, 1⟩

/-- Span over token 3 (`D`) of `c5toks`. -/
def c5span2 : Span := ⟨1, "D", 3, 3⟩

/-- C5 witness: the theorem applied to the sentence `A B C D` with
spans `B` and `D` (span 1 first in reading order). -/
theorem C5_marker_rewrite_witness :
    ((∀ t ∈ c5toks, t.data ≠ [] ∧ ' ' ∉ t.data)
      ∧ c5span1.start ≤ c5span1.stop ∧ c5span1.stop < c5toks.length
      ∧ c5span2.start ≤ c5span2.stop ∧ c5span2.stop < c5toks.length
      ∧ (c5span1.stop < c5span2.start ∨ c5span2.stop < c5span1.start))
    ∧ ∃ expToks e1span e2span,
      add_entity_markers c5toks c5span1 c5span2
        = Except.ok (expToks,
            if c5span1.start < c5span2.start then (e1span, e2span)
            else (e2span, e1span))
      ∧ e1span.text = "<e1>" ∧ e2span.text = "<e2>"
      ∧ expToks.getD e1span.pos "" = "<e1>"
      ∧ expToks.getD e2span.pos "" = "<e2>"
      ∧ expToks = (if c5span1.start < c5span2.start then
            markedTokens c5toks c5span1 c5span2 "<e1>" "</e1>" "<e2>" "</e2>"
          else markedTokens c5toks c5span2 c5span1 "<e2>" "</e2>" "<e1>"
            "</e1>") :=
  ⟨⟨by decide, by decide, by decide, by decide, by decide,
      Or.inl (by decide)⟩,
    C5_marker_rewrite c5toks c5span1 c5span2 (by decide) (by decide)
      (by decide) (by decide) (by decide) (Or.inl (by decide))⟩


/-! ### `forward_pass`

The orchestrator.  Everything it reads from a candidate after
generation is captured by `Candidate`; the marker path expands each
candidate with `add_entity_markers` (failures abort the whole call);
the chunk loop over the embedding provider is modelled by an explicit
fold whose state carries the relation-representation rows collected so
far, a trace of the provider `embed` invocations (with the provider's
train/eval mode at each call), the provider's current mode and the
`detach` flag. -/

/-- The first token of a span, as read back after embedding: the token
list of the sentence it lives in together with its position there. -/
abbrev TokenRef := List String × Nat

/-- An `entity_pairs` entry, reduced to what the embedding extraction
reads from it: the first token of each of the two spans. -/
abbrev EntityPairRef := TokenRef × TokenRef

/-- The pending label candidate `RelationLabel(head=span_1,
tail=span_2, value=None, score=None)` recorded per candidate when
`return_label_candidates` is set. -/
structure PendingLabel where
  head : Span
  tail : Span
deriving DecidableEq

/-- Exception-propagating map (a Python loop whose body may raise). -/
def mapExcept {α β ε : Type} (f : α → Except ε β) :
    List α → Except ε (List β)
  | [] => Except.ok []
  | x :: xs =>
    match f x with
    | Except.error e => Except.error e
    | Except.ok y =>
      match mapExcept f xs with
      | Except.error e => Except.error e
      | Except.ok ys => Except.ok (y :: ys)

/-- Expand one candidate with `add_entity_markers`: the expanded
sentence joins `sentences_to_embed` and the pair of (position-wrapped)
marker spans joins `entity_pairs`. -/
def expandCandidate (c : Candidate) :
    Except String (List String × EntityPairRef) :=
  match add_entity_markers c.sentTokens c.span1 c.span2 with
  | Except.error e => Except.error e
  | Except.ok (expToks, a, b) =>
    Except.ok (expToks, ((expToks, a.pos), (expToks, b.pos)))

/-- `torch.cat([span_1.tokens[0].get_embedding(),
span_2.tokens[0].get_embedding()])` for one entity pair. -/
def pairVec (cfg : Config) (p : EntityPairRef) : List Int :=
  cfg.tokEmb p.1.1 p.1.2 ++ cfg.tokEmb p.2.1 p.2.2

/-- Python's `[l[x : x + m] for x in range(0, len(l), m)]`: for
`m > 0` the range has `(len(l) + m - 1) / m` entries and slice `i` is
the next `m` elements; the recursion below produces exactly these
slices in order, with the slice count precomputed. -/
def chunkAux {α : Type} (m : Nat) : Nat → List α → List (List α)
  | 0, _ => []
  | k + 1, l => l.take m :: chunkAux m k (l.drop m)

/-- The chunk split of `l` with chunk size `m`. -/
def chunkList {α : Type} (l : List α) (m : Nat) : List (List α) :=
  chunkAux m ((l.length + m - 1) / m) l

/-- One provider `embed` invocation: the provider's train mode at that
moment and the sentences handed over. -/
structure EmbedCall where
  mode : Bool
  units : List (List String)
deriving DecidableEq

/-- State of the chunked embedding loop. -/
structure LoopState where
  reprs : List (List Int)
  calls : List EmbedCall
  mode : Bool
  detach : Bool
deriving DecidableEq

/-- The chunk loop for `TransformerDocumentEmbeddings`: per chunk,
`eval()` the provider when `detach` is set, embed the chunk, then
append one document embedding per sentence of the chunk. -/
def embedChunksDoc (cfg : Config) :
    LoopState → List (List (List String)) → LoopState
  | st, [] => st
  | st, chunk :: rest =>
    let mode := if st.detach then false else st.mode
    embedChunksDoc cfg
      { reprs := st.reprs ++ chunk.map cfg.docEmb,
        calls := st.calls ++ [⟨mode, chunk⟩],
        mode := mode,
        detach := true } rest

/-- The chunk loop for token-level embeddings: per zipped chunk,
`eval()` the provider when `detach` is set, embed the sentence chunk,
then append the concatenated first-token embeddings per entity pair of
the pair chunk. -/
def embedChunksTok (cfg : Config) :
    LoopState → List (List (List String) × List EntityPairRef) → LoopState
  | st, [] => st
  | st, (chunk, pchunk) :: rest =>
    let mode := if st.detach then false else st.mode
    embedChunksTok cfg
      { reprs := st.reprs ++ pchunk.map (pairVec cfg),
        calls := st.calls ++ [⟨mode, chunk⟩],
        mode := mode,
        detach := true } rest

/-- The value (and side-effect trace) of one `forward_pass` call.
`scores`, `labels`, `sentences_to_label` and `label_candidates` model
the returned tuple (`scores = none` models returning `None`);
`reprs` is the collected `relation_embeddings` list, `embedCalls` the
trace of provider `embed` invocations, `providerFinalMode` the
provider's train mode when the call returns, and `trainCalled` whether
`self.embeddings.train()` was invoked at the end. -/
structure FPOut where
  scores : Option (List (List Int))
  labels : List (List String)
  sentences_to_label : List Nat
  label_candidates : List PendingLabel
  reprs : List (List Int)
  embedCalls : List EmbedCall
  providerFinalMode : Bool
  trainCalled : Bool
deriving DecidableEq

/-- `forward_pass(sentences, return_label_candidates)`. -/
def forward_pass (cfg : Config) (sentences : List Sentence)
    (return_label_candidates : Bool) : Except String FPOut :=
  let cands := generate_candidates cfg sentences
  let labels := cands.map fun c => [c.label]
  let sentences_to_label :=
    if return_label_candidates then cands.map fun c => c.sentIdx else []
  let label_candidates :=
    if return_label_candidates then
      cands.map fun c => (⟨c.span1, c.span2⟩ : PendingLabel)
    else []
  let unitsAndPairs :
      Except String (List (List String) × List EntityPairRef) :=
    if cfg.use_entity_markers then
      match mapExcept expandCandidate cands with
      | Except.error e => Except.error e
      | Except.ok l => Except.ok (l.map Prod.fst, l.map Prod.snd)
    else
      Except.ok (sentences.map fun s => s.tokens,
        cands.map fun c =>
          ((c.sentTokens, c.span1.start), (c.sentTokens, c.span2.start)))
  match unitsAndPairs with
  | Except.error e => Except.error e
  | Except.ok (sentences_to_embed, entity_pairs) =>
    if 0 < labels.length then
      let maxRel := sentences.length * 4
      let unitSteps :=
        if maxRel < sentences_to_embed.length then
          chunkList sentences_to_embed maxRel
        else [sentences_to_embed]
      let pairSteps :=
        if maxRel < sentences_to_embed.length then
          chunkList entity_pairs maxRel
        else [entity_pairs]
      let st0 : LoopState := ⟨[], [], cfg.providerTrainMode, false⟩
      let stF :=
        match cfg.embKind with
        | EmbKind.document => embedChunksDoc cfg st0 unitSteps
        | EmbKind.token => embedChunksTok cfg st0 (unitSteps.zip pairSteps)
      let scores := (stF.reprs.map cfg.dropoutRow).map cfg.decodeRow
      Except.ok
        { scores := some scores,
          labels := labels,
          sentences_to_label := sentences_to_label,
          label_candidates := label_candidates,
          reprs := stF.reprs,
          embedCalls := stF.calls,
          providerFinalMode := if cfg.training then true else stF.mode,
          trainCalled := cfg.training }
    else
      Except.ok
        { scores := none,
          labels := labels,
          sentences_to_label := sentences_to_label,
          label_candidates := label_candidates,
          reprs := [],
          embedCalls := [],
          providerFinalMode := cfg.providerTrainMode,
          trainCalled := false }

/-- The per-candidate relation representation `forward_pass` computes
(in any of its supported configurations): the document embedding of
the expanded sentence, or the concatenated first-token embeddings of
the (expanded or original) span pair. -/
def candidate_repr (cfg : Config) (c : Candidate) :
    Except String (List Int) :=
  if cfg.use_entity_markers then
    match expandCandidate c with
    | Except.error e => Except.error e
    | Except.ok (expToks, p) =>
      Except.ok
        (match cfg.embKind with
         | EmbKind.document => cfg.docEmb expToks
         | EmbKind.token => pairVec cfg p)
  else
    Except.ok (pairVec cfg ((c.sentTokens, c.span1.start),
      (c.sentTokens, c.span2.start)))


section ChunkLemmas

/-- The chunk count is the precomputed fuel. -/
theorem chunkAux_length {α : Type} (m : Nat) :
    ∀ (k : Nat) (l : List α), (chunkAux m k l).length = k := by
  intro k
  induction k with
  | zero => intro l; rfl
  | succ k ih => intro l; simp [chunkAux, ih]

/-- Every chunk has at most `m` elements. -/
theorem chunkAux_sizes {α : Type} (m : Nat) :
    ∀ (k : Nat) (l : List α) (c : List α), c ∈ chunkAux m k l →
      c.length ≤ m := by
  intro k
  induction k with
  | zero => intro l c hc; simp [chunkAux] at hc
  | succ k ih =>
    intro l c hc
    rcases List.mem_cons.mp hc with hc | hc
    · subst hc; exact (List.length_take_le m l)
    · exact ih _ c hc

/-- The ceiling division step behind the chunk count. -/
theorem ceil_div_step (m L : Nat) (hm : 0 < m) (hL : 0 < L) :
    (L + m - 1) / m = (L - m + m - 1) / m + 1 := by
  have h1 : L + m - 1 = (L - 1) + m := by omega
  rw [h1, Nat.add_div_right _ hm]
  by_cases hLm : m ≤ L
  · have h2 : L - m + m - 1 = L - 1 := by omega
    rw [h2]
  · have h2 : L - m = 0 := by omega
    rw [h2]
    have h3 : (L - 1) / m = 0 := Nat.div_eq_of_lt (by omega)
    have h4 : (0 + m - 1) / m = 0 := Nat.div_eq_of_lt (by omega)
    rw [h3, h4]

/-- Concatenating the chunks in order reproduces the original list. -/
theorem chunkList_flatten {α : Type} (m : Nat) (hm : 0 < m) :
    ∀ (n : Nat) (l : List α), l.length ≤ n →
      (chunkList l m).flatten = l := by
  intro n
  induction n with
  | zero =>
    intro l hl
    have hnil : l = [] := List.eq_nil_of_length_eq_zero (by omega)
    subst hnil
    have h0 : (m - 1) / m = 0 := Nat.div_eq_of_lt (by omega)
    simp [chunkList, h0, chunkAux]
  | succ n ih =>
    intro l hl
    cases l with
    | nil =>
      have h0 : (m - 1) / m = 0 := Nat.div_eq_of_lt (by omega)
      simp [chunkList, h0, chunkAux]
    | cons a l2 =>
      have hstep : ((a :: l2).length + m - 1) / m
          = (((a :: l2).drop m).length + m - 1) / m + 1 := by
        rw [List.length_drop]
        exact ceil_div_step m (a :: l2).length hm (by simp)
      rw [chunkList, hstep]
      rw [show chunkAux m ((((a :: l2).drop m).length + m - 1) / m + 1)
          (a :: l2)
          = (a :: l2).take m
            :: chunkAux m ((((a :: l2).drop m).length + m - 1) / m)
              ((a :: l2).drop m) from rfl]
      rw [List.flatten_cons]
      rw [show chunkAux m ((((a :: l2).drop m).length + m - 1) / m)
          ((a :: l2).drop m) = chunkList ((a :: l2).drop m) m from rfl]
      rw [ih ((a :: l2).drop m) (by
        have hl2 := hl
        simp only [List.length_drop, List.length_cons] at hl2 ⊢
        omega)]
      exact List.take_append_drop m (a :: l2)

/-- The chunk count of the split. -/
theorem chunkList_length {α : Type} (l : List α) (m : Nat) :
    (chunkList l m).length = (l.length + m - 1) / m :=
  chunkAux_length m _ l

end ChunkLemmas

section MapExceptLemmas

/-- A successful `mapExcept` preserves the length. -/
theorem mapExcept_length {α β ε : Type} (f : α → Except ε β) :
    ∀ (xs : List α) (ys : List β), mapExcept f xs = Except.ok ys →
      ys.length = xs.length := by
  intro xs
  induction xs with
  | nil => intro ys h; cases h; rfl
  | cons x xs ih =>
    intro ys h
    unfold mapExcept at h
    cases hfx : f x with
    | error e => rw [hfx] at h; cases h
    | ok y =>
      rw [hfx] at h
      cases hrest : mapExcept f xs with
      | error e => rw [hrest] at h; cases h
      | ok ys2 =>
        rw [hrest] at h
        cases h
        simp [ih ys2 hrest]

/-- A pointwise-derived `mapExcept` succeeds with the mapped values. -/
theorem mapExcept_congr_map {α β γ ε : Type} (f : α → Except ε β)
    (g : α → Except ε γ) (h : β → γ)
    (hfg : ∀ x y, f x = Except.ok y → g x = Except.ok (h y)) :
    ∀ (xs : List α) (ys : List β), mapExcept f xs = Except.ok ys →
      mapExcept g xs = Except.ok (ys.map h) := by
  intro xs
  induction xs with
  | nil => intro ys hy; cases hy; rfl
  | cons x xs ih =>
    intro ys hy
    unfold mapExcept at hy ⊢
    cases hfx : f x with
    | error e => rw [hfx] at hy; cases hy
    | ok y =>
      rw [hfx] at hy
      cases hrest : mapExcept f xs with
      | error e => rw [hrest] at hy; cases hy
      | ok ys2 =>
        rw [hrest] at hy
        cases hy
        rw [hfg x y hfx, ih ys2 hrest]
        rfl

end MapExceptLemmas

section EmbedLoopLemmas

/-- The document chunk loop once `detach` is set: everything is
embedded in eval mode. -/
theorem embedChunksDoc_detached (cfg : Config) :
    ∀ (chunks : List (List (List String))) (st : LoopState),
      st.detach = true →
      embedChunksDoc cfg st chunks
        = { reprs := st.reprs ++ chunks.flatten.map cfg.docEmb,
            calls := st.calls
              ++ chunks.map fun c => (⟨false, c⟩ : EmbedCall),
            mode := if chunks.isEmpty then st.mode else false,
            detach := true } := by
  intro chunks
  induction chunks with
  | nil =>
    intro st hd
    cases st
    simp_all [embedChunksDoc]
  | cons c rest ih =>
    intro st hd
    rw [show embedChunksDoc cfg st (c :: rest)
        = embedChunksDoc cfg
          { reprs := st.reprs ++ c.map cfg.docEmb,
            calls := st.calls
              ++ [⟨if st.detach then false else st.mode, c⟩],
            mode := if st.detach then false else st.mode,
            detach := true } rest from rfl]
    rw [ih _ rfl]
    simp [hd, List.append_assoc]

/-- The document chunk loop from a fresh state: the first chunk is
embedded in the provider's entry mode, all later chunks in eval
mode. -/
theorem embedChunksDoc_start (cfg : Config) (c : List (List String))
    (rest : List (List (List String))) (st : LoopState)
    (hd : st.detach = false) :
    embedChunksDoc cfg st (c :: rest)
      = { reprs := st.reprs ++ (c :: rest).flatten.map cfg.docEmb,
          calls := st.calls
            ++ (⟨st.mode, c⟩ : EmbedCall)
              :: rest.map fun ch => (⟨false, ch⟩ : EmbedCall),
          mode := if rest.isEmpty then st.mode else false,
          detach := true } := by
  rw [show embedChunksDoc cfg st (c :: rest)
      = embedChunksDoc cfg
        { reprs := st.reprs ++ c.map cfg.docEmb,
          calls := st.calls
            ++ [⟨if st.detach then false else st.mode, c⟩],
          mode := if st.detach then false else st.mode,
          detach := true } rest from rfl]
  rw [embedChunksDoc_detached cfg rest _ rfl]
  simp [hd, List.append_assoc]

/-- The token chunk loop once `detach` is set. -/
theorem embedChunksTok_detached (cfg : Config) :
    ∀ (chunks : List (List (List String) × List EntityPairRef))
      (st : LoopState),
      st.detach = true →
      embedChunksTok cfg st chunks
        = { reprs := st.reprs
              ++ ((chunks.map Prod.snd).flatten).map (pairVec cfg),
            calls := st.calls
              ++ chunks.map fun ch => (⟨false, ch.1⟩ : EmbedCall),
            mode := if chunks.isEmpty then st.mode else false,
            detach := true } := by
  intro chunks
  induction chunks with
  | nil =>
    intro st hd
    cases st
    simp_all [embedChunksTok]
  | cons c rest ih =>
    intro st hd
    rcases c with ⟨u, p⟩
    rw [show embedChunksTok cfg st ((u, p) :: rest)
        = embedChunksTok cfg
          { reprs := st.reprs ++ p.map (pairVec cfg),
            calls := st.calls
              ++ [⟨if st.detach then false else st.mode, u⟩],
            mode := if st.detach then false else st.mode,
            detach := true } rest from rfl]
    rw [ih _ rfl]
    simp [hd, List.append_assoc]

/-- The token chunk loop from a fresh state. -/
theorem embedChunksTok_start (cfg : Config) (u : List (List String))
    (p : List EntityPairRef)
    (rest : List (List (List String) × List EntityPairRef))
    (st : LoopState) (hd : st.detach = false) :
    embedChunksTok cfg st ((u, p) :: rest)
      = { reprs := st.reprs
            ++ (p ++ (rest.map Prod.snd).flatten).map (pairVec cfg),
          calls := st.calls
            ++ (⟨st.mode, u⟩ : EmbedCall)
              :: rest.map fun ch => (⟨false, ch.1⟩ : EmbedCall),
          mode := if rest.isEmpty then st.mode else false,
          detach := true } := by
  rw [show embedChunksTok cfg st ((u, p) :: rest)
      = embedChunksTok cfg
        { reprs := st.reprs ++ p.map (pairVec cfg),
          calls := st.calls
            ++ [⟨if st.detach then false else st.mode, u⟩],
          mode := if st.detach then false else st.mode,
          detach := true } rest from rfl]
  rw [embedChunksTok_detached cfg rest _ rfl]
  simp [hd, List.append_assoc]

end EmbedLoopLemmas


/-- A loop body that always succeeds maps. -/
theorem mapExcept_ok_of_forall {α β ε : Type} (f : α → Except ε β)
    (g : α → β) (h : ∀ x, f x = Except.ok (g x)) :
    ∀ xs : List α, mapExcept f xs = Except.ok (xs.map g) := by
  intro xs
  induction xs with
  | nil => rfl
  | cons x xs ih =>
    unfold mapExcept
    rw [h x, ih]
    rfl

/-- One chunk suffices when the list fits the budget. -/
theorem ceil_div_one_of_le (P m : Nat) (h1 : 0 < P) (h2 : P ≤ m) :
    (P + m - 1) / m = 1 := by
  have hm : 0 < m := by omega
  have he : P + m - 1 = (P - 1) + m := by omega
  rw [he, Nat.add_div_right _ hm, Nat.div_eq_of_lt (by omega)]

/-- C7: when zero candidate pairs are generated for the whole batch,
no embedding or decoding is performed (empty embed-call trace) and
`forward_pass` returns normally with `scores` absent (`none`, not a
zero-length tensor), `labels = []`, and the two candidate lists
empty. -/
theorem C7_empty_batch (cfg : Config) (sents : List Sentence) (rlc : Bool)
    (h : generate_candidates cfg sents = []) :
    forward_pass cfg sents rlc
      = Except.ok
        { scores := none, labels := [], sentences_to_label := [],
          label_candidates := [], reprs := [], embedCalls := [],
          providerFinalMode := cfg.providerTrainMode,
          trainCalled := false } := by
  unfold forward_pass
  rw [h]
  cases hm : cfg.use_entity_markers <;> simp [mapExcept]

/-- Single sentence with one span: zero candidates. -/
def oneSpanSent : Sentence :=
  { tokens := ["A"], relLabels := [], spanLabels := [⟨spanA, "E"⟩] }

/-- C7 witness: a sentence with fewer than 2 spans yields zero
candidates and the absent-scores result. -/
theorem C7_empty_batch_witness :
    generate_candidates plainCfg [oneSpanSent] = []
    ∧ forward_pass plainCfg [oneSpanSent] true
      = Except.ok
        { scores := none, labels := [], sentences_to_label := [],
          label_candidates := [], reprs := [], embedCalls := [],
          providerFinalMode := plainCfg.providerTrainMode,
          trainCalled := false } :=
  ⟨by decide, C7_empty_batch plainCfg [oneSpanSent] true (by decide)⟩

/-- Master description of a successful `forward_pass` without entity
markers and with at least one candidate: `sentences_to_embed` is the
input sentence list itself (length N), the chunk guard `N > 4 * N`
never fires, so there is exactly one provider call, made in the
provider's entry mode. -/
theorem forward_pass_plain_spec (cfg : Config) (sents : List Sentence)
    (rlc : Bool) (out : FPOut)
    (hok : forward_pass cfg sents rlc = Except.ok out)
    (hm : cfg.use_entity_markers = false)
    (hP : 0 < (generate_candidates cfg sents).length) :
    out.reprs
      = (match cfg.embKind with
         | EmbKind.document =>
            (sents.map fun s => s.tokens).map cfg.docEmb
         | EmbKind.token =>
            (generate_candidates cfg sents).map fun c =>
              pairVec cfg ((c.sentTokens, c.span1.start),
                (c.sentTokens, c.span2.start)))
    ∧ out.embedCalls
        = [⟨cfg.providerTrainMode, sents.map fun s => s.tokens⟩]
    ∧ out.scores = some ((out.reprs.map cfg.dropoutRow).map cfg.decodeRow)
    ∧ out.labels = (generate_candidates cfg sents).map (fun c => [c.label])
    ∧ out.sentences_to_label
        = (if rlc then (generate_candidates cfg sents).map fun c => c.sentIdx
           else [])
    ∧ out.label_candidates
        = (if rlc then
            (generate_candidates cfg sents).map fun c =>
              (⟨c.span1, c.span2⟩ : PendingLabel)
           else [])
    ∧ out.trainCalled = cfg.training
    ∧ out.providerFinalMode
        = (if cfg.training then true else cfg.providerTrainMode) := by
  simp only [forward_pass] at hok
  split at hok
  · exact absurd hok (by simp)
  · rename_i units pairs heq
    rw [if_neg (by simp [hm])] at heq
    simp only [Except.ok.injEq, Prod.mk.injEq] at heq
    obtain ⟨hu, hp⟩ := heq
    subst hu; subst hp
    simp only [List.length_map] at hok
    rw [if_pos hP] at hok
    have hguard : ¬ sents.length * 4 < sents.length := by omega
    rw [if_neg hguard, if_neg hguard] at hok
    cases hk : cfg.embKind
    case document =>
      simp only [hk] at hok
      rw [embedChunksDoc_start cfg (sents.map fun s => s.tokens) [] _ rfl]
        at hok
      simp only [Except.ok.injEq] at hok
      subst hok
      simp [hk]
    case token =>
      simp only [hk, List.zip_cons_cons, List.zip_nil_left] at hok
      rw [embedChunksTok_start cfg (sents.map fun s => s.tokens)
        ((generate_candidates cfg sents).map fun c =>
          ((c.sentTokens, c.span1.start), (c.sentTokens, c.span2.start)))
        [] _ rfl] at hok
      simp only [Except.ok.injEq] at hok
      subst hok
      simp [hk, List.map_map]


/-- Reading the units back from eval-mode calls. -/
theorem map_units_of_mk :
    ∀ rest : List (List (List String)),
      ((rest.map fun ch => (⟨false, ch⟩ : EmbedCall)).map
        fun call => call.units) = rest := by
  intro rest
  induction rest with
  | nil => rfl
  | cons a b ihb => simp only [List.map_cons, ihb]

/-- Reading the units back from eval-mode calls over zipped chunks. -/
theorem map_units_of_mk_fst {β : Type} :
    ∀ rest : List (List (List String) × β),
      ((rest.map fun ch => (⟨false, ch.1⟩ : EmbedCall)).map
        fun call => call.units) = rest.map Prod.fst := by
  intro rest
  induction rest with
  | nil => rfl
  | cons a b ihb => simp only [List.map_cons, ihb]

/-- Master description of a successful `forward_pass` with entity
markers and at least one candidate: `sentences_to_embed` holds one
expanded sentence per candidate (P of them), the chunk guard compares P
against `4 * N`, each provider call embeds one chunk, the first in the
provider's entry mode and the rest in eval mode. -/
theorem forward_pass_marker_spec (cfg : Config) (sents : List Sentence)
    (rlc : Bool) (out : FPOut)
    (l : List (List String × EntityPairRef))
    (hok : forward_pass cfg sents rlc = Except.ok out)
    (hm : cfg.use_entity_markers = true)
    (hP : 0 < (generate_candidates cfg sents).length)
    (hex : mapExcept expandCandidate (generate_candidates cfg sents)
      = Except.ok l) :
    out.reprs
      = (match cfg.embKind with
         | EmbKind.document => (l.map Prod.fst).map cfg.docEmb
         | EmbKind.token => (l.map Prod.snd).map (pairVec cfg))
    ∧ (out.embedCalls.map fun call => call.units)
        = (if sents.length * 4 < l.length then
            chunkList (l.map Prod.fst) (sents.length * 4)
          else [l.map Prod.fst])
    ∧ (∃ c0 crest, out.embedCalls = c0 :: crest
        ∧ c0.mode = cfg.providerTrainMode ∧ ∀ c ∈ crest, c.mode = false)
    ∧ out.scores = some ((out.reprs.map cfg.dropoutRow).map cfg.decodeRow)
    ∧ out.labels = (generate_candidates cfg sents).map (fun c => [c.label])
    ∧ out.sentences_to_label
        = (if rlc then (generate_candidates cfg sents).map fun c => c.sentIdx
           else [])
    ∧ out.label_candidates
        = (if rlc then
            (generate_candidates cfg sents).map fun c =>
              (⟨c.span1, c.span2⟩ : PendingLabel)
           else [])
    ∧ out.trainCalled = cfg.training
    ∧ out.providerFinalMode
        = (if cfg.training then true
           else if out.embedCalls.length ≤ 1 then cfg.providerTrainMode
           else false) := by
  have hN : sents ≠ [] := by
    intro hs; subst hs; simp [generate_candidates] at hP
  have hm4 : 0 < sents.length * 4 := by
    have hl0 := List.length_pos.mpr hN; omega
  have hlenl : l.length = (generate_candidates cfg sents).length :=
    mapExcept_length _ _ _ hex
  simp only [forward_pass] at hok
  split at hok
  · exact absurd hok (by simp)
  · rename_i units pairs heq
    rw [if_pos hm, hex] at heq
    simp only [Except.ok.injEq, Prod.mk.injEq] at heq
    obtain ⟨hu, hp⟩ := heq
    subst hu; subst hp
    simp only [List.length_map] at hok
    rw [if_pos hP] at hok
    by_cases hch : sents.length * 4 < l.length
    · rw [if_pos hch, if_pos hch] at hok
      have h1 : 0 < (chunkList (l.map Prod.fst) (sents.length * 4)).length
          := by
        rw [chunkList_length, List.length_map]
        exact (Nat.one_le_div_iff hm4).mpr (by omega)
      have h2 : 0 < (chunkList (l.map Prod.snd) (sents.length * 4)).length
          := by
        rw [chunkList_length, List.length_map]
        exact (Nat.one_le_div_iff hm4).mpr (by omega)
      obtain ⟨c, rest, hcu⟩ :=
        List.exists_cons_of_ne_nil (List.ne_nil_of_length_pos h1)
      obtain ⟨c2, rest2, hcp⟩ :=
        List.exists_cons_of_ne_nil (List.ne_nil_of_length_pos h2)
      have hrestlen : rest.length = rest2.length := by
        have e1 := chunkList_length (l.map Prod.fst) (sents.length * 4)
        have e2 := chunkList_length (l.map Prod.snd) (sents.length * 4)
        rw [hcu] at e1; rw [hcp] at e2
        simp only [List.length_cons, List.length_map] at e1 e2
        omega
      have hflat_u : (c :: rest).flatten = l.map Prod.fst := by
        rw [← hcu]
        exact chunkList_flatten _ hm4 _ _ (Nat.le_refl _)
      have hflat_p : (c2 :: rest2).flatten = l.map Prod.snd := by
        rw [← hcp]
        exact chunkList_flatten _ hm4 _ _ (Nat.le_refl _)
      cases hk : cfg.embKind with
      | document =>
        simp only [hk] at hok
        rw [hcu, embedChunksDoc_start cfg c rest _ rfl] at hok
        simp only [Except.ok.injEq] at hok
        subst hok
        refine ⟨?_, ?_, ?_, ?_, rfl, rfl, rfl, rfl, ?_⟩
        · simp [hk, hflat_u]
        · rw [if_pos hch, hcu]
          simp only [List.nil_append, List.map_cons, map_units_of_mk]
        · refine ⟨_, _, rfl, rfl, ?_⟩
          intro cc hcc
          simp only [List.mem_map] at hcc
          obtain ⟨ch, _, hcc⟩ := hcc
          rw [← hcc]
        · simp
        · cases rest with
          | nil => simp
          | cons r rs => simp [List.length_cons]
      | token =>
        simp only [hk] at hok
        rw [hcu, hcp] at hok
        simp only [List.zip_cons_cons] at hok
        rw [embedChunksTok_start cfg c c2 (rest.zip rest2) _ rfl] at hok
        simp only [Except.ok.injEq] at hok
        subst hok
        have hms : (rest.zip rest2).map Prod.snd = rest2 :=
          List.map_snd_zip rest rest2 (by omega)
        have hmf : (rest.zip rest2).map Prod.fst = rest :=
          List.map_fst_zip rest rest2 (by omega)
        refine ⟨?_, ?_, ?_, ?_, rfl, rfl, rfl, rfl, ?_⟩
        · simp only [hk]
          rw [hms]
          rw [show c2 ++ rest2.flatten = (c2 :: rest2).flatten from rfl,
            hflat_p]
          simp
        · rw [if_pos hch, hcu]
          simp only [List.nil_append, List.map_cons, map_units_of_mk_fst,
            hmf]
        · refine ⟨_, _, rfl, rfl, ?_⟩
          intro cc hcc
          simp only [List.mem_map] at hcc
          obtain ⟨ch, _, hcc⟩ := hcc
          rw [← hcc]
        · simp
        · cases hzz : rest.zip rest2 with
          | nil => simp [hzz]
          | cons z zs => simp [hzz, List.length_cons]
    · rw [if_neg hch, if_neg hch] at hok
      cases hk : cfg.embKind with
      | document =>
        simp only [hk] at hok
        rw [embedChunksDoc_start cfg (l.map Prod.fst) [] _ rfl] at hok
        simp only [Except.ok.injEq] at hok
        subst hok
        refine ⟨?_, ?_, ?_, ?_, rfl, rfl, rfl, rfl, ?_⟩
        · simp [hk]
        · simp [if_neg hch]
        · exact ⟨_, _, rfl, rfl, by intro cc hcc; simp at hcc⟩
        · simp
        · simp
      | token =>
        simp only [hk, List.zip_cons_cons, List.zip_nil_left] at hok
        rw [embedChunksTok_start cfg (l.map Prod.fst) (l.map Prod.snd) []
          _ rfl] at hok
        simp only [Except.ok.injEq] at hok
        subst hok
        refine ⟨?_, ?_, ?_, ?_, rfl, rfl, rfl, rfl, ?_⟩
        · simp [hk]
        · simp [if_neg hch]
        · exact ⟨_, _, rfl, rfl, by intro cc hcc; simp at hcc⟩
        · simp
        · simp


/-- The per-candidate representations in marker mode, derived from the
successful expansions. -/
theorem mapExcept_candidate_repr_marker (cfg : Config)
    (cands : List Candidate) (l : List (List String × EntityPairRef))
    (hex : mapExcept expandCandidate cands = Except.ok l)
    (hm : cfg.use_entity_markers = true) :
    mapExcept (candidate_repr cfg) cands
      = Except.ok
        (match cfg.embKind with
         | EmbKind.document => (l.map Prod.fst).map cfg.docEmb
         | EmbKind.token => (l.map Prod.snd).map (pairVec cfg)) := by
  cases hk : cfg.embKind with
  | document =>
    have hpoint : ∀ c y, expandCandidate c = Except.ok y →
        candidate_repr cfg c = Except.ok (cfg.docEmb y.1) := by
      intro c y hy
      rcases y with ⟨t2, pr⟩
      simp [candidate_repr, hm, hy, hk]
    rw [mapExcept_congr_map expandCandidate (candidate_repr cfg) _ hpoint
      cands l hex]
    simp [List.map_map]
  | token =>
    have hpoint : ∀ c y, expandCandidate c = Except.ok y →
        candidate_repr cfg c = Except.ok (pairVec cfg y.2) := by
      intro c y hy
      rcases y with ⟨t2, pr⟩
      simp [candidate_repr, hm, hy, hk]
    rw [mapExcept_congr_map expandCandidate (candidate_repr cfg) _ hpoint
      cands l hex]
    simp [List.map_map]

/-- C1 (amended): in every supported configuration (token-level
embeddings, or document-level embeddings with entity markers), a
`forward_pass` generating `P > 0` candidates returns a scores tensor
with exactly `P` rows, a labels list of `P` single-element entries, and
(when `return_label_candidates` is set) `P` per-candidate sentence
references and `P` pending label candidates, all positionally aligned
with the candidates in generation order: row `i` is the decoded
(dropout + decoder) representation of candidate `i`. -/
theorem C1_alignment (cfg : Config) (sents : List Sentence) (rlc : Bool)
    (out : FPOut) (hok : forward_pass cfg sents rlc = Except.ok out)
    (hsupp : cfg.embKind = EmbKind.token ∨ cfg.use_entity_markers = true)
    (hP : 0 < (generate_candidates cfg sents).length) :
    ∃ rows, out.scores = some rows
      ∧ rows.length = (generate_candidates cfg sents).length
      ∧ out.labels = (generate_candidates cfg sents).map (fun c => [c.label])
      ∧ (rlc = true →
          out.sentences_to_label
            = (generate_candidates cfg sents).map (fun c => c.sentIdx)
          ∧ out.label_candidates
            = (generate_candidates cfg sents).map
                (fun c => (⟨c.span1, c.span2⟩ : PendingLabel)))
      ∧ mapExcept (candidate_repr cfg) (generate_candidates cfg sents)
          = Except.ok out.reprs
      ∧ rows = (out.reprs.map cfg.dropoutRow).map cfg.decodeRow := by
  by_cases hm : cfg.use_entity_markers = true
  · cases hex : mapExcept expandCandidate (generate_candidates cfg sents)
      with
    | error e =>
      exfalso
      simp only [forward_pass] at hok
      split at hok
      · exact absurd hok (by simp)
      · rename_i units pairs heq
        rw [if_pos hm, hex] at heq
        simp at heq
    | ok l =>
      obtain ⟨hreprs, _, _, hscores, hlabels, hstl, hlc, _, _⟩ :=
        forward_pass_marker_spec cfg sents rlc out l hok hm hP hex
      have hlenl : l.length = (generate_candidates cfg sents).length :=
        mapExcept_length _ _ _ hex
      refine ⟨_, hscores, ?_, hlabels, ?_, ?_, rfl⟩
      · cases hk : cfg.embKind <;>
          simp only [hk] at hreprs <;>
          simp [hreprs, hlenl]
      · intro hrlc
        exact ⟨by rw [hstl, if_pos hrlc], by rw [hlc, if_pos hrlc]⟩
      · rw [mapExcept_candidate_repr_marker cfg _ l hex hm, hreprs]
  · have hm2 : cfg.use_entity_markers = false := by
      cases hmm : cfg.use_entity_markers
      · rfl
      · exact absurd hmm hm
    have hk : cfg.embKind = EmbKind.token := by
      rcases hsupp with hk | hmm2
      · exact hk
      · exact absurd hmm2 hm
    obtain ⟨hreprs, _, hscores, hlabels, hstl, hlc, _, _⟩ :=
      forward_pass_plain_spec cfg sents rlc out hok hm2 hP
    refine ⟨_, hscores, ?_, hlabels, ?_, ?_, rfl⟩
    · simp only [hk] at hreprs
      simp [hreprs]
    · intro hrlc
      exact ⟨by rw [hstl, if_pos hrlc], by rw [hlc, if_pos hrlc]⟩
    · have hpt : ∀ c, candidate_repr cfg c
          = Except.ok (pairVec cfg ((c.sentTokens, c.span1.start),
              (c.sentTokens, c.span2.start))) := by
        intro c
        simp [candidate_repr, hm2]
      rw [mapExcept_ok_of_forall (candidate_repr cfg) _ hpt]
      simp only [hk] at hreprs
      rw [hreprs]

/-- C4 (amended): with entity markers on (the configuration in which
`sentences_to_embed` holds one expanded sentence per candidate), a
`forward_pass` generating `P > 0` candidates over `N` sentences embeds
in `ceil(P / (4N))` provider calls, each covering at most `4N`
consecutive candidates, the concatenation of the per-call chunks in
order is exactly the full expanded-sentence list, and the collected
relation representations equal the unchunked per-candidate map. -/
theorem C4_chunking (cfg : Config) (sents : List Sentence) (rlc : Bool)
    (out : FPOut) (hok : forward_pass cfg sents rlc = Except.ok out)
    (hm : cfg.use_entity_markers = true)
    (hP : 0 < (generate_candidates cfg sents).length) :
    ∃ l, mapExcept expandCandidate (generate_candidates cfg sents)
        = Except.ok l
      ∧ out.embedCalls.length
          = ((generate_candidates cfg sents).length + sents.length * 4 - 1)
            / (sents.length * 4)
      ∧ (∀ call ∈ out.embedCalls, call.units.length ≤ sents.length * 4)
      ∧ (out.embedCalls.map fun call => call.units).flatten = l.map Prod.fst
      ∧ mapExcept (candidate_repr cfg) (generate_candidates cfg sents)
          = Except.ok out.reprs := by
  have hN : sents ≠ [] := by
    intro hs; subst hs; simp [generate_candidates] at hP
  have hm4 : 0 < sents.length * 4 := by
    have hl0 := List.length_pos.mpr hN; omega
  cases hex : mapExcept expandCandidate (generate_candidates cfg sents)
    with
  | error e =>
    exfalso
    simp only [forward_pass] at hok
    split at hok
    · exact absurd hok (by simp)
    · rename_i units pairs heq
      rw [if_pos hm, hex] at heq
      simp at heq
  | ok l =>
    obtain ⟨hreprs, hunits, _, _, _, _, _, _, _⟩ :=
      forward_pass_marker_spec cfg sents rlc out l hok hm hP hex
    have hlenl : l.length = (generate_candidates cfg sents).length :=
      mapExcept_length _ _ _ hex
    refine ⟨l, rfl, ?_, ?_, ?_, ?_⟩
    · have hcount : out.embedCalls.length
          = (out.embedCalls.map fun call => call.units).length := by
        rw [List.length_map]
      rw [hcount, hunits]
      by_cases hch : sents.length * 4 < l.length
      · rw [if_pos hch, chunkList_length, List.length_map, hlenl]
      · rw [if_neg hch]
        simp only [List.length_singleton]
        rw [ceil_div_one_of_le _ _ hP (by omega)]
    · intro call hcall
      have hmem : call.units ∈ out.embedCalls.map fun c2 => c2.units :=
        List.mem_map_of_mem _ hcall
      rw [hunits] at hmem
      by_cases hch : sents.length * 4 < l.length
      · rw [if_pos hch] at hmem
        exact chunkAux_sizes _ _ _ _ hmem
      · rw [if_neg hch] at hmem
        simp only [List.mem_singleton] at hmem
        rw [hmem, List.length_map]
        omega
    · rw [hunits]
      by_cases hch : sents.length * 4 < l.length
      · rw [if_pos hch]
        exact chunkList_flatten _ hm4 _ _ (Nat.le_refl _)
      · rw [if_neg hch]
        simp
    · rw [mapExcept_candidate_repr_marker cfg _ l hex hm, hreprs]

/-- C9: in every `forward_pass` that embeds more than one chunk, the
provider is switched to eval mode before embedding every chunk after
the first (only the first chunk is embedded in the provider's entry
mode), and before the call returns the provider is switched back to
training mode if and only if the owning model is in training mode. -/
theorem C9_chunk_modes (cfg : Config) (sents : List Sentence) (rlc : Bool)
    (out : FPOut) (hok : forward_pass cfg sents rlc = Except.ok out)
    (hmulti : 1 < out.embedCalls.length) :
    ∃ c0 rest, out.embedCalls = c0 :: rest
      ∧ c0.mode = cfg.providerTrainMode
      ∧ (∀ c ∈ rest, c.mode = false)
      ∧ out.trainCalled = cfg.training
      ∧ out.providerFinalMode = cfg.training := by
  by_cases hP : 0 < (generate_candidates cfg sents).length
  · by_cases hm : cfg.use_entity_markers = true
    · cases hex : mapExcept expandCandidate (generate_candidates cfg sents)
        with
      | error e =>
        exfalso
        simp only [forward_pass] at hok
        split at hok
        · exact absurd hok (by simp)
        · rename_i units pairs heq
          rw [if_pos hm, hex] at heq
          simp at heq
      | ok l =>
        obtain ⟨_, _, ⟨c0, crest, hcalls, hc0, hcrest⟩, _, _, _, _, htc,
          hfm⟩ := forward_pass_marker_spec cfg sents rlc out l hok hm hP hex
        refine ⟨c0, crest, hcalls, hc0, hcrest, htc, ?_⟩
        rw [hfm]
        rw [if_neg (show ¬ out.embedCalls.length ≤ 1 from by omega)]
        cases hct : cfg.training <;> simp [hct]
    · have hm2 : cfg.use_entity_markers = false := by
        cases hmm : cfg.use_entity_markers
        · rfl
        · exact absurd hmm hm
      obtain ⟨_, hcalls, _⟩ :=
        forward_pass_plain_spec cfg sents rlc out hok hm2 hP
      rw [hcalls] at hmulti
      simp at hmulti
  · have h0 : generate_candidates cfg sents = [] :=
      List.eq_nil_of_length_eq_zero (by omega)
    have hfp : forward_pass cfg sents rlc
        = Except.ok
          { scores := none, labels := [], sentences_to_label := [],
            label_candidates := [], reprs := [], embedCalls := [],
            providerFinalMode := cfg.providerTrainMode,
            trainCalled := false } := by
      unfold forward_pass
      rw [h0]
      cases hmm : cfg.use_entity_markers <;> simp [mapExcept]
    rw [hfp] at hok
    simp only [Except.ok.injEq] at hok
    subst hok
    simp at hmulti


/-- Equality of `Except` values is decidable componentwise. -/
instance {ε α : Type} [DecidableEq ε] [DecidableEq α] :
    DecidableEq (Except ε α) := fun a b =>
  match a, b with
  | Except.error e1, Except.error e2 => decidable_of_iff (e1 = e2) (by simp)
  | Except.error e1, Except.ok a2 => Decidable.isFalse (by simp)
  | Except.ok a1, Except.error e2 => Decidable.isFalse (by simp)
  | Except.ok a1, Except.ok a2 => decidable_of_iff (a1 = a2) (by simp)

/-- Fallback output value used to name concrete `forward_pass`
results. -/
def fpDefault : FPOut :=
  { scores := none, labels := [], sentences_to_label := [],
    label_candidates := [], reprs := [], embedCalls := [],
    providerFinalMode := false, trainCalled := false }

/-- Concrete output of a supported (token-level, no-marker) run on the
two-span gold sentence. -/
def plainGoldOut : FPOut :=
  (forward_pass plainCfg [goldSent] true).toOption.getD fpDefault

/-- C1 witness: the theorem applied to a concrete token-level
no-marker run with two candidates. -/
theorem C1_alignment_witness :
    (forward_pass plainCfg [goldSent] true = Except.ok plainGoldOut
      ∧ (plainCfg.embKind = EmbKind.token
          ∨ plainCfg.use_entity_markers = true)
      ∧ 0 < (generate_candidates plainCfg [goldSent]).length)
    ∧ ∃ rows, plainGoldOut.scores = some rows
      ∧ rows.length = (generate_candidates plainCfg [goldSent]).length
      ∧ plainGoldOut.labels
          = (generate_candidates plainCfg [goldSent]).map
              (fun c => [c.label])
      ∧ (true = true →
          plainGoldOut.sentences_to_label
            = (generate_candidates plainCfg [goldSent]).map
                (fun c => c.sentIdx)
          ∧ plainGoldOut.label_candidates
            = (generate_candidates plainCfg [goldSent]).map
                (fun c => (⟨c.span1, c.span2⟩ : PendingLabel)))
      ∧ mapExcept (candidate_repr plainCfg)
          (generate_candidates plainCfg [goldSent])
          = Except.ok plainGoldOut.reprs
      ∧ rows = (plainGoldOut.reprs.map plainCfg.dropoutRow).map
          plainCfg.decodeRow :=
  ⟨⟨by decide, Or.inl rfl, by decide⟩,
    C1_alignment plainCfg [goldSent] true plainGoldOut (by decide)
      (Or.inl rfl) (by decide)⟩

/-- Document-level embeddings without entity markers: the
configuration under which the claimed alignment breaks. -/
def docNoMarkCfg : Config :=
  { embKind := EmbKind.document, use_entity_markers := false,
    use_gold_spans := false, use_entity_pairs := none,
    docEmb := fun _ => [7], tokEmb := fun _ _ => [5],
    dropoutRow := fun v => v, decodeRow := fun v => v,
    training := false, providerTrainMode := false }

/-- C1 counterexample: with a document-level provider and
`use_entity_markers` off, a batch of one sentence with two candidates
returns a scores tensor with one row per original sentence (1), not
one per candidate (2), so the claimed `P`-row alignment is false as
stated. -/
theorem C1_counterexample :
    (generate_candidates docNoMarkCfg [goldSent]).length = 2
    ∧ (forward_pass docNoMarkCfg [goldSent] false).toOption.map
        (fun o => (o.labels.length, o.scores.map List.length))
      = some (2, some 1)
    ∧ (1 : Nat) ≠ 2 := by decide

/-- Marker-mode fixture: one sentence with three spans, so `P = 6`
exceeds `4 * N = 4` and the embedding runs in two chunks. -/
def markerCfg : Config :=
  { embKind := EmbKind.document, use_entity_markers := true,
    use_gold_spans := false, use_entity_pairs := none,
    docEmb := fun _ => [1], tokEmb := fun _ _ => [2],
    dropoutRow := fun v => v, decodeRow := fun v => v,
    training := true, providerTrainMode := true }

/-- Three single-token spans over three tokens. -/
def markerSent : Sentence :=
  { tokens := ["A", "B", "C"],
    relLabels := [],
    spanLabels := [⟨⟨0, "A", 0, 0⟩, "E"⟩, ⟨⟨1, "B", 1, 1⟩, "E"⟩,
      ⟨⟨2, "C", 2, 2⟩, "E"⟩] }

/-- Concrete output of the two-chunk marker-mode run. -/
def markerOut : FPOut :=
  (forward_pass markerCfg [markerSent] false).toOption.getD fpDefault

/-- C4 witness: the amended theorem applied to the concrete marker-mode
run with 6 candidates over 1 sentence (2 chunks of sizes 4 and 2). -/
theorem C4_chunking_witness :
    (forward_pass markerCfg [markerSent] false = Except.ok markerOut
      ∧ markerCfg.use_entity_markers = true
      ∧ 0 < (generate_candidates markerCfg [markerSent]).length)
    ∧ ∃ l, mapExcept expandCandidate
          (generate_candidates markerCfg [markerSent]) = Except.ok l
      ∧ markerOut.embedCalls.length
          = ((generate_candidates markerCfg [markerSent]).length
              + [markerSent].length * 4 - 1) / ([markerSent].length * 4)
      ∧ (∀ call ∈ markerOut.embedCalls,
          call.units.length ≤ [markerSent].length * 4)
      ∧ (markerOut.embedCalls.map fun call => call.units).flatten
          = l.map Prod.fst
      ∧ mapExcept (candidate_repr markerCfg)
          (generate_candidates markerCfg [markerSent])
          = Except.ok markerOut.reprs :=
  ⟨⟨by decide, rfl, by decide⟩,
    C4_chunking markerCfg [markerSent] false markerOut (by decide) rfl
      (by decide)⟩

/-- C4 counterexample: without entity markers, `sentences_to_embed` is
the original sentence list, whose length `N` never exceeds `4 * N`, so
one sentence with 6 candidates is embedded in a single provider call,
not in the claimed `ceil(6 / 4) = 2` chunks. -/
theorem C4_counterexample :
    (generate_candidates plainCfg [threeSpanSent]).length = 6
    ∧ (forward_pass plainCfg [threeSpanSent] false).toOption.map
        (fun o => o.embedCalls.length) = some 1
    ∧ (6 + 4 * 1 - 1) / (4 * 1) = 2
    ∧ (1 : Nat) ≠ 2 := by decide

/-- C9 witness: the theorem applied to the concrete two-chunk
marker-mode run of a training-mode model. -/
theorem C9_chunk_modes_witness :
    (forward_pass markerCfg [markerSent] false = Except.ok markerOut
      ∧ 1 < markerOut.embedCalls.length)
    ∧ ∃ c0 rest, markerOut.embedCalls = c0 :: rest
      ∧ c0.mode = markerCfg.providerTrainMode
      ∧ (∀ c ∈ rest, c.mode = false)
      ∧ markerOut.trainCalled = markerCfg.training
      ∧ markerOut.providerFinalMode = markerCfg.training :=
  ⟨⟨by decide, by decide⟩,
    C9_chunk_modes markerCfg [markerSent] false markerOut (by decide)
      (by decide)⟩


/-! ### Construction-time decoder width (`__init__`) and persistence -/

/-- The relation-representation width fixed at construction
(`__init__`): `2 * embedding_length`, doubled again when
`pooling_operation == "first_last"`, or `embedding_length` alone for
`TransformerDocumentEmbeddings`. -/
def relation_representation_length (embedding_length : Nat)
    (pooling_operation : String) (is_document_embeddings : Bool) : Nat :=
  let r := 2 * embedding_length
  let r := if pooling_operation = "first_last" then r * 2 else r
  if is_document_embeddings then embedding_length else r

/-- The constructor default for `pooling_operation`. -/
def pooling_operation_default : String := "first_last"

/-- Token-level provider whose token embeddings have length 1
(`embedding_length = 1`). -/
def c8cfg : Config :=
  { embKind := EmbKind.token, use_entity_markers := false,
    use_gold_spans := false, use_entity_pairs := none,
    docEmb := fun _ => [7], tokEmb := fun _ _ => [5],
    dropoutRow := fun v => v, decodeRow := fun v => v,
    training := false, providerTrainMode := false }

/-- C8 fails on the code: under the constructor default
`pooling_operation = "first_last"` with token-level embeddings, the
decoder input width is fixed at `4 * embedding_length`, but the
forward pass always concatenates exactly two first-token embeddings,
giving vectors of length `2 * embedding_length`.  With
`embedding_length = 1` the decoder width is 4 while every collected
relation representation has length 2. -/
theorem C8_width_mismatch :
    relation_representation_length 1 pooling_operation_default false = 4
    ∧ (forward_pass c8cfg [goldSent] false).toOption.map
        (fun o => o.reprs.map List.length) = some [2, 2]
    ∧ (2 : Nat) ≠ 4 := by decide

/-- A constructed `RelationExtractor` model, reduced to the fields the
persistence contract covers.  `embeddings` and `network_state` are
opaque references to the provider object and the `state_dict`
weights. -/
structure REModel where
  embeddings : Nat
  label_dictionary : List String
  label_type : Option String
  span_label_type : Option String
  loss_weights : Option (List (String × Rat))
  use_gold_spans : Bool
  pooling_operation : String
  use_entity_markers : Bool
  dropout_value : Rat
  use_entity_pairs : Option (List (String × String))
  non_linear_decoder : Bool
  network_state : Nat
deriving DecidableEq

/-- The constructor default for `use_gold_spans`. -/
def use_gold_spans_default : Bool := false

/-- `__init__`, restricted to the persisted fields: stores the
arguments and appends `O` to the label dictionary when missing
(`self.label_dictionary.add_item('O')`). -/
def relationExtractorInit (embeddings : Nat)
    (label_dictionary : List String)
    (label_type span_label_type : Option String)
    (use_entity_markers use_gold_spans : Bool)
    (use_entity_pairs : Option (List (String × String)))
    (pooling_operation : String) (dropout_value : Rat)
    (non_linear_decoder : Bool)
    (loss_weights : Option (List (String × Rat)))
    (network_state : Nat) : REModel :=
  { embeddings := embeddings,
    label_dictionary :=
      if "O" ∈ label_dictionary then label_dictionary
      else label_dictionary ++ ["O"],
    label_type := label_type,
    span_label_type := span_label_type,
    loss_weights := loss_weights,
    use_gold_spans := use_gold_spans,
    pooling_operation := pooling_operation,
    use_entity_markers := use_entity_markers,
    dropout_value := dropout_value,
    use_entity_pairs := use_entity_pairs,
    non_linear_decoder := non_linear_decoder,
    network_state := network_state }

/-- The dictionary persisted by `_get_state_dict`; note that
`use_gold_spans` is not among its entries. -/
structure REStateDict where
  state_dict : Nat
  token_embeddings : Nat
  label_dictionary : List String
  label_type : Option String
  span_label_type : Option String
  loss_weights : Option (List (String × Rat))
  pooling_operation : String
  dropout_value : Rat
  use_entity_pairs : Option (List (String × String))
  use_entity_markers : Bool
  non_linear_decoder : Bool
deriving DecidableEq

/-- `_get_state_dict`. -/
def get_state_dict (m : REModel) : REStateDict :=
  { state_dict := m.network_state,
    token_embeddings := m.embeddings,
    label_dictionary := m.label_dictionary,
    label_type := m.label_type,
    span_label_type := m.span_label_type,
    loss_weights := m.loss_weights,
    pooling_operation := m.pooling_operation,
    dropout_value := m.dropout_value,
    use_entity_pairs := m.use_entity_pairs,
    use_entity_markers := m.use_entity_markers,
    non_linear_decoder := m.non_linear_decoder }

/-- `_init_model_with_state_dict`: calls the constructor without a
`use_gold_spans` argument (so the constructor default `False` applies)
and then loads the saved weights with `load_state_dict`. -/
def init_model_with_state_dict (st : REStateDict) : REModel :=
  let m := relationExtractorInit st.token_embeddings st.label_dictionary
    st.label_type st.span_label_type st.use_entity_markers
    use_gold_spans_default st.use_entity_pairs st.pooling_operation
    st.dropout_value st.non_linear_decoder st.loss_weights 0
  { m with network_state := st.state_dict }

/-- C10: restoring a saved model loses `use_gold_spans` — the restored
model equals the original with `use_gold_spans` reset to the
constructor default `False`, even when the original was constructed
with `True`; `pooling_operation`, `dropout_value`, `use_entity_pairs`,
`use_entity_markers`, `non_linear_decoder`, `label_type`,
`span_label_type`, `label_dictionary`, `loss_weights` and the network
weights are persisted and restored unchanged. -/
theorem C10_roundtrip (e : Nat) (ld : List String)
    (lt slt : Option String) (uem ugs : Bool)
    (uep : Option (List (String × String))) (po : String) (dv : Rat)
    (nld : Bool) (lw : Option (List (String × Rat))) (ns : Nat) :
    init_model_with_state_dict (get_state_dict
        (relationExtractorInit e ld lt slt uem ugs uep po dv nld lw ns))
      = { relationExtractorInit e ld lt slt uem ugs uep po dv nld lw ns
          with use_gold_spans := false } := by
  by_cases h : "O" ∈ ld <;>
    simp [relationExtractorInit, init_model_with_state_dict,
      get_state_dict, use_gold_spans_default, h]


end FlairRE
